import Mathlib

/-!
Verification of the dynamic backend synchronization engine of the
kubernetes-ingress controller.

The development shallowly embeds the Go sources:

* `controller/store` types (`HAProxySrv`, `Address`, `PortEndpoints`, ...);
* `SyncBackendSrvs` (runtime server synchronization, haproxy/api client file):
  scan of the slot pool against the live address map, reuse of disabled
  slots, and the push of dirty slots through the runtime control-plane
  calls `SetServerAddr` / `SetServerState`;
* `scaleHAProxySrvs`, `HandleEndpoints`, `updateHAProxySrv`
  (`controller/service/endpoints.go`): slot-pool growth to the configured
  minimum, draining of the address set, and the configuration-path push
  (`BackendServerEdit` with a `BackendServerCreate` fallback);
* the structural comparators `Service.Equal`, `PortEndpoints.Equal`,
  `Endpoints.Equal`, `IngressClass.Equal` (`controller/store` equality file).

Go maps are modelled as association lists in one fixed iteration order
(Go's map order is unspecified; every statement proved below holds for the
given order, i.e. for an arbitrary but fixed order supplied as input).
Pointers to store objects are modelled by `Option` where a method
nil-guards, and by plain values elsewhere.  Machine integers (`int`,
`int64`) are modelled by `Int`; none of the verified paths exercises
overflow.  The control-plane client is modelled by the trace of calls the
code issues, plus error oracles standing for the client's per-call replies.
-/

/-! ## Store data model (`controller/store`, type declarations file) -/

/-- `store.HAProxySrv`: a named server slot.  A slot with `Address = ""` is
disabled.  Field order follows the Go declaration. -/
structure HAProxySrv where
  Name : String
  Address : String
  Modified : Bool
  Port : Int
  deriving Repr, DecidableEq

/-- `store.Address`: one live endpoint address entry. -/
structure Address where
  Address : String
  Port : Int
  deriving Repr, DecidableEq

/-- The Go `map[string]*store.Address` of live addresses, in one fixed
iteration order. -/
abbrev AddrMap := List (String × Address)

/-- Go map membership test (`_, ok := m[k]`). -/
def AddrMap.hasKey (m : AddrMap) (k : String) : Bool :=
  m.any (fun p => p.1 == k)

/-- Go `delete(m, k)`. -/
def AddrMap.delKey (m : AddrMap) (k : String) : AddrMap :=
  m.filter (fun p => p.1 != k)

/-! ## Runtime synchronization: `SyncBackendSrvs` (haproxy/api runtime file) -/

/-- A call issued to the control-plane runtime client. -/
inductive RtCall where
  | setServerAddr (backend server ip : String) (port : Int)
  | setServerState (backend server state : String)
  deriving Repr, DecidableEq

/-- Result of the first loop of `SyncBackendSrvs`: updated pool, remaining
address map, and the positions (`disabled`, in pool order) of the slots
recorded as reusable. -/
structure ScanResult where
  pool : List HAProxySrv
  addrs : AddrMap
  disabled : List Nat
  deriving Repr

/-- First loop of `SyncBackendSrvs` (`for i, srv := range *haproxySrvs`),
started at pool position `i`.  `portChanged` is the constant `false` in the
source, so `srv.Modified = portChanged || srv.Modified` leaves the flag
unchanged.  A slot whose address has a live entry keeps its fields and the
entry is deleted; any other slot is disabled (`Address=""`, `Modified=true`)
and recorded in `disabled`. -/
def syncScan (i : Nat) : List HAProxySrv → AddrMap → ScanResult
  | [], A => ⟨[], A, []⟩
  | s :: rest, A =>
    if A.hasKey s.Address then
      let r := syncScan (i + 1) rest (A.delKey s.Address)
      ⟨s :: r.pool, r.addrs, r.disabled⟩
    else
      let r := syncScan (i + 1) rest A
      ⟨{ s with Address := "", Modified := true } :: r.pool, r.addrs, i :: r.disabled⟩

/-- In-place update `disabled[0].Address = address.Address;
disabled[0].Modified = true; disabled[0].Port = address.Port` at pool
position `j`. -/
def setSrvAddr (pool : List HAProxySrv) (j : Nat) (a : Address) : List HAProxySrv :=
  match pool[j]? with
  | some s => pool.set j { s with Address := a.Address, Modified := true, Port := a.Port }
  | none => pool

/-- Second loop of `SyncBackendSrvs` (`for key, address := range newAddresses`):
each remaining live entry is assigned into the next reusable slot; the loop
breaks when no reusable slot is left, leaving the rest of the map. -/
def syncFill : List HAProxySrv → AddrMap → List Nat → List HAProxySrv × AddrMap
  | pool, A, [] => (pool, A)
  | pool, [], _ :: _ => (pool, [])
  | pool, (_, a) :: A, j :: ds => syncFill (setSrvAddr pool j a) A ds

/-- Body of the push loop of `SyncBackendSrvs` for one modified slot:
a disabled slot is pushed as `127.0.0.1:0` + `maint`, an enabled slot as
its real address/port + `ready`; the address call precedes the state call. -/
def pushPair (b : String) (s : HAProxySrv) : List RtCall :=
  if s.Address == "" then
    [.setServerAddr b s.Name "127.0.0.1" 0, .setServerState b s.Name "maint"]
  else
    [.setServerAddr b s.Name s.Address s.Port, .setServerState b s.Name "ready"]

/-- Modelled from the spec: `utils.Errors.Add` (package `controller/utils`,
not under the sources) appends an error to the accumulator when it is
non-nil and ignores nil. -/
def errsAdd (errs : List String) (e : Option String) : List String :=
  match e with
  | some m => errs ++ [m]
  | none => errs

/-- Modelled from the spec: `utils.Errors.Result` (package
`controller/utils`, not under the sources) returns nil when no error was
collected and otherwise one composite error aggregating all of them;
the composite is modelled as the list of collected messages. -/
def errorsResult (errs : List String) : Option (List String) :=
  if errs.isEmpty then none else some errs

/-- Push loop of `SyncBackendSrvs` (`for _, srv := range *haproxySrvs`):
slots with `Modified = false` are skipped; for the others both runtime
calls are issued, and if either reply is an error both replies are added to
the error accumulator.  `fa`/`fs` are the client's replies to
`SetServerAddr`/`SetServerState`, keyed by server name. -/
def syncPush (b : String) (fa fs : String → Option String) :
    List HAProxySrv → List RtCall × List String
  | [] => ([], [])
  | s :: rest =>
    let r := syncPush b fa fs rest
    if s.Modified then
      let addrErr := fa s.Name
      let stateErr := fs s.Name
      let errs :=
        if addrErr.isSome || stateErr.isSome then errsAdd (errsAdd [] addrErr) stateErr
        else []
      (pushPair b s ++ r.1, errs ++ r.2)
    else r

/-- Result of one `SyncBackendSrvs` pass: the pool and address map after
their in-place mutation, the trace of runtime calls, and the aggregated
error returned to the caller. -/
structure SyncResult where
  pool : List HAProxySrv
  addrs : AddrMap
  calls : List RtCall
  errs : Option (List String)
  deriving Repr

/-- No-failure client reply oracle. -/
def noFail : String → Option String := fun _ => none

/-- `SyncBackendSrvs(BackendName, haproxySrvs, newAddresses)`: early return
on an empty backend name, then scan, reuse of disabled slots, and push of
every modified slot. -/
def SyncBackendSrvs (backendName : String) (pool : List HAProxySrv) (A : AddrMap)
    (fa fs : String → Option String) : SyncResult :=
  if backendName == "" then ⟨pool, A, [], none⟩
  else
    let r := syncScan 0 pool A
    let f := syncFill r.pool r.addrs r.disabled
    let p := syncPush backendName fa fs f.1
    ⟨f.1, f.2, p.1, errorsResult p.2⟩

/-! ## Slot-pool scaling: `scaleHAProxySrvs` (`controller/service/endpoints.go`) -/

/-- `fmt.Sprintf("SRV_%d", n)`. -/
def srvName (n : Nat) : String := "SRV_" ++ toString n

/-- `strconv.Atoi`: an optional sign followed by at least one digit; any
other string is a parse error.  (Overflow of the 64-bit range is not
modelled; no verified path exercises it.) -/
def atoiGo (s : String) : Option Int :=
  let digits : List Char → Option Int := fun cs =>
    if cs.isEmpty then none
    else if cs.all (fun c => c.isDigit) then
      some (cs.foldl (fun n c => n * 10 + ((c.toNat - '0'.toNat : Nat) : Int)) 0)
    else none
  match s.toList with
  | '+' :: rest => digits rest
  | '-' :: rest => (digits rest).map (fun n => -n)
  | rest => digits rest

/-- The annotation precedence loop of `scaleHAProxySrvs`
(`for _, annotation := range []string{...}`): the first annotation in list
order whose value is present and parses wins (`break`); a present but
unparseable value is logged and the loop falls through to the next name;
`srvSlots` stays `0` when none wins. -/
def annLoop (lookupAnn : String → String) : List String → Int
  | [] => 0
  | n :: rest =>
    let v := lookupAnn n
    if v != "" then
      match atoiGo v with
      | some k => k
      | none => annLoop lookupAnn rest
    else annLoop lookupAnn rest

/-- The resolved `srvSlots` minimum of `scaleHAProxySrvs`; `lookupAnn`
stands for `k8sStore.GetValueFromAnnotations(name, configMapAnnotations)`. -/
def resolveSrvSlots (lookupAnn : String → String) : Int :=
  annLoop lookupAnn ["servers-increment", "server-slots", "scale-server-slots"]

/-- Growth loop of `scaleHAProxySrvs`
(`for len(*HAProxySrvs) < srvSlots { ... append ... }`), with the number of
remaining iterations `(srvSlots - len).toNat` made explicit as fuel: each
iteration appends one disabled slot named by the next index and records it
as reusable.  Returns the grown pool, the positions of the slots created,
and the `flag` telling whether any slot was added. -/
def scaleGrowAux (srvSlots : Int) : Nat → List HAProxySrv → List HAProxySrv × List Nat × Bool
  | 0, pool => (pool, [], false)
  | fuel + 1, pool =>
    if (pool.length : Int) < srvSlots then
      let srv : HAProxySrv := ⟨srvName (pool.length + 1), "", true, 0⟩
      let r := scaleGrowAux srvSlots fuel (pool ++ [srv])
      (r.1, pool.length :: r.2.1, true)
    else (pool, [], false)

/-- The growth step of `scaleHAProxySrvs`; the loop runs exactly
`(srvSlots - len(pool)).toNat` times since each iteration grows the pool
by one. -/
def scaleGrow (pool : List HAProxySrv) (srvSlots : Int) :
    List HAProxySrv × List Nat × Bool :=
  scaleGrowAux srvSlots (srvSlots - pool.length).toNat pool

/-- In-place update `disabled[0].Address = addr; disabled[0].Modified = true;
disabled[0].Port = Address.Port` of the scaling drain loop (the map key is
assigned as the address). -/
def setScaleSlot (pool : List HAProxySrv) (j : Nat) (k : String) (a : Address) :
    List HAProxySrv :=
  match pool[j]? with
  | some s => pool.set j { s with Address := k, Modified := true, Port := a.Port }
  | none => pool

/-- Drain loop of `scaleHAProxySrvs`
(`for addr, Address := range *newAddresses`): each entry is assigned into
the next reusable slot if one remains and otherwise into a brand-new slot
appended at the end; every entry is deleted from the map.  The returned
flag tells whether a new slot was minted. -/
def scaleFill : List HAProxySrv → AddrMap → List Nat → List HAProxySrv × Bool
  | pool, [], _ => (pool, false)
  | pool, (k, a) :: A, j :: ds => scaleFill (setScaleSlot pool j k a) A ds
  | pool, (k, a) :: A, [] =>
    let srv : HAProxySrv := ⟨srvName (pool.length + 1), k, true, a.Port⟩
    let r := scaleFill (pool ++ [srv]) A []
    (r.1, true)

/-- Result of `scaleHAProxySrvs`: pool and address map after mutation and
the returned reload signal. -/
structure ScaleResult where
  pool : List HAProxySrv
  addrs : AddrMap
  reload : Bool
  deriving Repr

/-- `scaleHAProxySrvs(newAddresses, HAProxySrvs)`: resolve the minimum,
grow the pool, signal reload when grown, then drain the address map into
reusable or brand-new slots, signalling reload when a new slot was minted.
The drain deletes every entry, so the returned map is empty. -/
def scaleHAProxySrvs (pool : List HAProxySrv) (A : AddrMap)
    (lookupAnn : String → String) : ScaleResult :=
  let srvSlots := resolveSrvSlots lookupAnn
  let g := scaleGrow pool srvSlots
  let f := scaleFill g.1 A g.2.1
  ⟨f.1, [], g.2.2 || f.2⟩

/-! ## Configuration-path push: `updateHAProxySrv`, `HandleEndpoints` -/

/-- The fields of the `models.Server` spec that `updateHAProxySrv` sets
before pushing (the remaining template fields come from the annotation
collaborator and are identical for edit and create). -/
structure ServerSpec where
  Name : String
  Address : String
  Maintenance : String
  Port : Int
  deriving Repr, DecidableEq

/-- A call issued to the configuration client. -/
inductive CfgCall where
  | edit (backend : String) (srv : ServerSpec)
  | create (backend : String) (srv : ServerSpec)
  deriving Repr, DecidableEq

/-- `strings.Contains` on character lists: the pattern occurs as a prefix
of some suffix (an empty pattern always occurs). -/
def containsSub : List Char → List Char → Bool
  | _, [] => true
  | [], _ :: _ => false
  | c :: rest, pat => pat.isPrefixOf (c :: rest) || containsSub rest pat

/-- `strings.Contains`. -/
def goContains (s sub : String) : Bool :=
  containsSub s.toList sub.toList

/-- `updateHAProxySrv(client, srv, srvSlot, port)`: build the server spec
(disabled slot → `127.0.0.1` + maintenance enabled, enabled slot → real
address + maintenance disabled), issue `BackendServerEdit`, and when the
edit reply is an error containing "does not exist" issue
`BackendServerCreate` with the same spec.  Other edit errors are only
logged; the function returns no error either way.  `editErr` is the
client's reply to the edit, keyed by server name. -/
def updateHAProxySrv (backendName : String) (srvSlot : HAProxySrv) (port : Int)
    (editErr : String → Option String) : List CfgCall :=
  let srv : ServerSpec :=
    if srvSlot.Address == "" then ⟨srvSlot.Name, "127.0.0.1", "enabled", port⟩
    else ⟨srvSlot.Name, srvSlot.Address, "disabled", port⟩
  match editErr srvSlot.Name with
  | none => [.edit backendName srv]
  | some e =>
    if goContains e "does not exist" then
      [.edit backendName srv, .create backendName srv]
    else [.edit backendName srv]

/-- Result of the core of one `HandleEndpoints` pass: pool after scaling,
configuration calls issued, and the returned reload signal. -/
structure HandleResult where
  pool : List HAProxySrv
  calls : List CfgCall
  reload : Bool
  deriving Repr

/-- Core of `HandleEndpoints` after the store lookups: scale the pool when
the service has no DNS name, compare the freshly built server-options
template against the stored one when the backend pre-existed
(`srvsActiveAnn`; `tmplDiff` stands for `len(deep.Equal(oldSrv, srv)) != 0`),
push every slot that is modified — or every slot when the backend is new or
the template changed — and return `srvsScaled || srvsActiveAnn`. -/
def HandleEndpoints (backendName : String) (pool : List HAProxySrv) (A : AddrMap)
    (lookupAnn : String → String) (dns : String) (newBackend tmplDiff : Bool)
    (editErr : String → Option String) : HandleResult :=
  let sres := if dns == "" then scaleHAProxySrvs pool A lookupAnn else ⟨pool, A, false⟩
  let srvsActiveAnn := !newBackend && tmplDiff
  let calls :=
    (sres.pool.map (fun s =>
      if s.Modified || newBackend || srvsActiveAnn then
        updateHAProxySrv backendName s s.Port editErr
      else [])).flatten
  ⟨sres.pool, calls, sres.reload || srvsActiveAnn⟩

/-! ## Structural comparators (`controller/store` equality file)

`Option` models the Go pointer receivers/arguments of the nil-guarded
methods; Go map fields are modelled as association lists (annotation maps)
or key lists (the `map[string]struct{}` address set), with unique keys as
in a Go map; the `Status` fields, never compared, are omitted. -/

/-- Go map read with the string zero value (`v := m[k]`). -/
def lookupGo (m : List (String × String)) (k : String) : String :=
  match m.find? (fun p => p.1 == k) with
  | some p => p.2
  | none => ""

/-- `store.ServicePort` (compared fields). -/
structure ServicePort where
  Name : String
  Protocol : String
  Port : Int
  deriving Repr, DecidableEq

/-- `store.Service` (fields read by `Service.Equal`, plus the uncompared
`Namespace` and `DNS` for reference). -/
structure Service where
  Namespace : String
  Name : String
  Ports : List ServicePort
  DNS : String
  Annotations : List (String × String)
  deriving Repr, DecidableEq

/-- `Service.Equal`: nil guard, then `Name`, the annotation map by length
and per-key lookup (a missing key reads as `""`), and the port list by
length and per-index `Name`/`Protocol`/`Port`. -/
def Service.Equal : Option Service → Option Service → Bool
  | some a, some b =>
    a.Name == b.Name &&
    a.Annotations.length == b.Annotations.length &&
    a.Annotations.all (fun p => lookupGo b.Annotations p.1 == p.2) &&
    a.Ports.length == b.Ports.length &&
    (a.Ports.zip b.Ports).all (fun q =>
      q.1.Name == q.2.Name && q.1.Protocol == q.2.Protocol && q.1.Port == q.2.Port)
  | _, _ => false

/-- `store.PortEndpoints`.  The type declaration file carries
`Port`, `DynUpdateFailed`, `AddrCount`, `AddrNew`; the comparator also
reads a `HAProxySrvs` slot list, included here. -/
structure PortEndpoints where
  Port : Int
  DynUpdateFailed : Bool
  AddrCount : Int
  AddrNew : List String
  HAProxySrvs : List HAProxySrv
  deriving Repr, DecidableEq

/-- `PortEndpoints.Equal`: nil guard, equal `Port` and `AddrCount`, every
non-empty configured slot address present in the new `AddrNew` set, and the
old `AddrNew` set contained in the new one. -/
def PortEndpoints.Equal : Option PortEndpoints → Option PortEndpoints → Bool
  | some o, some n =>
    o.Port == n.Port &&
    o.AddrCount == n.AddrCount &&
    o.HAProxySrvs.all (fun s => s.Address == "" || n.AddrNew.contains s.Address) &&
    o.AddrNew.all (fun k => n.AddrNew.contains k)
  | _, _ => false

/-- `store.Endpoints` (compared fields; `Ports` maps port names to
endpoint values). -/
structure Endpoints where
  SliceName : String
  Namespace : String
  Service : String
  Ports : List (String × PortEndpoints)
  deriving Repr, DecidableEq

/-- `Endpoints.Equal`: nil guard, equal `Namespace` and `Service`, and the
`Ports` map by length and per-key `PortEndpoints.Equal`. -/
def Endpoints.Equal : Option Endpoints → Option Endpoints → Bool
  | some a, some b =>
    a.Namespace == b.Namespace &&
    a.Service == b.Service &&
    a.Ports.length == b.Ports.length &&
    a.Ports.all (fun p =>
      match b.Ports.find? (fun q => q.1 == p.1) with
      | some q => PortEndpoints.Equal (some p.2) (some q.2)
      | none => false)
  | _, _ => false

/-- `store.IngressClass` (compared fields plus `APIVersion`). -/
structure IngressClass where
  APIVersion : String
  Name : String
  Controller : String
  deriving Repr, DecidableEq

/-- `IngressClass.Equal`: nil guard, then `Name` and `Controller`. -/
def IngressClass.Equal : Option IngressClass → Option IngressClass → Bool
  | some a, some b => a.Name == b.Name && a.Controller == b.Controller
  | _, _ => false

/-! ## Operation sequences over one backend's pool -/

/-- One call against a fixed backend's slot pool: a scaling step
(`scaleHAProxySrvs`) or a runtime synchronization step
(`SyncBackendSrvs`). -/
inductive PoolOp where
  | scale (lookupAnn : String → String) (A : AddrMap)
  | sync (backendName : String) (A : AddrMap)

/-- The pool after one call. -/
def applyPoolOp (pool : List HAProxySrv) : PoolOp → List HAProxySrv
  | .scale la A => (scaleHAProxySrvs pool A la).pool
  | .sync b A => (SyncBackendSrvs b pool A noFail noFail).pool

/-- The pool after a sequence of calls. -/
def applyPoolOps (pool : List HAProxySrv) : List PoolOp → List HAProxySrv
  | [] => pool
  | op :: ops => applyPoolOps (applyPoolOp pool op) ops

/-! ## Helper lemmas -/

lemma pushPair_ne_nil (b : String) (s : HAProxySrv) : pushPair b s ≠ [] := by
  unfold pushPair
  split <;> simp

lemma syncPush_cons_true (b : String) (fa fs : String → Option String)
    (s : HAProxySrv) (rest : List HAProxySrv) (hm : s.Modified = true) :
    syncPush b fa fs (s :: rest) =
      (pushPair b s ++ (syncPush b fa fs rest).1,
       (if (fa s.Name).isSome || (fs s.Name).isSome then
          errsAdd (errsAdd [] (fa s.Name)) (fs s.Name)
        else []) ++ (syncPush b fa fs rest).2) := by
  simp [syncPush, hm]

lemma syncPush_cons_false (b : String) (fa fs : String → Option String)
    (s : HAProxySrv) (rest : List HAProxySrv) (hm : s.Modified = false) :
    syncPush b fa fs (s :: rest) = syncPush b fa fs rest := by
  simp [syncPush, hm]

lemma syncPush_calls_nil_iff (b : String) (fa fs : String → Option String)
    (l : List HAProxySrv) :
    (syncPush b fa fs l).1 = [] ↔ ∀ s ∈ l, s.Modified = false := by
  induction l with
  | nil => simp [syncPush]
  | cons s rest ih =>
    cases hm : s.Modified with
    | true =>
      rw [syncPush_cons_true b fa fs s rest hm]
      constructor
      · intro h
        rcases List.append_eq_nil.mp h with ⟨h1, _⟩
        exact absurd h1 (pushPair_ne_nil b s)
      · intro h
        have := h s (List.mem_cons_self s rest)
        rw [hm] at this
        cases this
    | false =>
      rw [syncPush_cons_false b fa fs s rest hm]
      rw [ih]
      constructor
      · intro h t ht
        rcases List.mem_cons.mp ht with rfl | ht'
        · exact hm
        · exact h t ht'
      · intro h t ht
        exact h t (List.mem_cons_of_mem s ht)

lemma syncPush_calls_indep (b : String) (fa fs fa' fs' : String → Option String)
    (l : List HAProxySrv) :
    (syncPush b fa fs l).1 = (syncPush b fa' fs' l).1 := by
  induction l with
  | nil => rfl
  | cons s rest ih =>
    cases hm : s.Modified with
    | true =>
      rw [syncPush_cons_true b fa fs s rest hm, syncPush_cons_true b fa' fs' s rest hm]
      simp [ih]
    | false =>
      rw [syncPush_cons_false b fa fs s rest hm, syncPush_cons_false b fa' fs' s rest hm]
      exact ih

lemma syncPush_mem_pair (b : String) (fa fs : String → Option String)
    (l : List HAProxySrv) (s : HAProxySrv) (hs : s ∈ l) (hm : s.Modified = true) :
    ∃ pre post, (syncPush b fa fs l).1 = pre ++ (pushPair b s ++ post) := by
  induction l with
  | nil => cases hs
  | cons t rest ih =>
    rcases List.mem_cons.mp hs with rfl | hs'
    · refine ⟨[], (syncPush b fa fs rest).1, ?_⟩
      rw [syncPush_cons_true b fa fs s rest hm]
      simp
    · rcases ih hs' with ⟨pre, post, hp⟩
      cases hmt : t.Modified with
      | true =>
        rw [syncPush_cons_true b fa fs t rest hmt]
        exact ⟨pushPair b t ++ pre, post, by simp [hp]⟩
      | false =>
        rw [syncPush_cons_false b fa fs t rest hmt]
        exact ⟨pre, post, hp⟩

lemma SyncBackendSrvs_pool (b : String) (pool : List HAProxySrv) (A : AddrMap)
    (fa fs : String → Option String) (hb : b ≠ "") :
    (SyncBackendSrvs b pool A fa fs).pool =
      (syncFill (syncScan 0 pool A).pool (syncScan 0 pool A).addrs
        (syncScan 0 pool A).disabled).1 := by
  simp [SyncBackendSrvs, hb]

lemma SyncBackendSrvs_calls (b : String) (pool : List HAProxySrv) (A : AddrMap)
    (fa fs : String → Option String) (hb : b ≠ "") :
    (SyncBackendSrvs b pool A fa fs).calls =
      (syncPush b fa fs (SyncBackendSrvs b pool A fa fs).pool).1 := by
  simp [SyncBackendSrvs, hb]

lemma SyncBackendSrvs_errs (b : String) (pool : List HAProxySrv) (A : AddrMap)
    (fa fs : String → Option String) (hb : b ≠ "") :
    (SyncBackendSrvs b pool A fa fs).errs =
      errorsResult (syncPush b fa fs (SyncBackendSrvs b pool A fa fs).pool).2 := by
  simp [SyncBackendSrvs, hb]

lemma scaleGrow_of_le (pool : List HAProxySrv) (m : Int) (h : m ≤ pool.length) :
    scaleGrow pool m = (pool, [], false) := by
  unfold scaleGrow
  have h0 : (m - pool.length).toNat = 0 := by omega
  rw [h0]
  rfl

lemma find?_key_self (m : List (String × String)) (p : String × String)
    (hnd : (m.map Prod.fst).Nodup) (hp : p ∈ m) :
    m.find? (fun q => q.1 == p.1) = some p := by
  induction m with
  | nil => cases hp
  | cons q rest ih =>
    rw [List.map_cons, List.nodup_cons] at hnd
    rcases List.mem_cons.mp hp with rfl | hmem
    · rw [List.find?_cons_of_pos _ (by simp)]
    · have hne : (q.1 == p.1) = false := by
        rw [beq_eq_false_iff_ne]
        intro he
        exact hnd.1 (he ▸ List.mem_map.mpr ⟨p, hmem, rfl⟩)
      rw [List.find?_cons_of_neg _ (by simp [hne])]
      exact ih hnd.2 hmem

lemma lookupGo_self (m : List (String × String)) (p : String × String)
    (hnd : (m.map Prod.fst).Nodup) (hp : p ∈ m) :
    lookupGo m p.1 = p.2 := by
  rw [lookupGo, find?_key_self m p hnd hp]

lemma mem_zip_self {α : Type} (p : α × α) (l : List α) (h : p ∈ l.zip l) :
    p.1 = p.2 := by
  induction l with
  | nil => cases h
  | cons a t ih =>
    cases h with
    | head => rfl
    | tail _ h2 => exact ih h2

/-- C10: for the nil-guarded `Equal` methods on store objects
(`PortEndpoints.Equal`, `Endpoints.Equal`, `IngressClass.Equal`), a nil
argument — on either side, including both sides nil — makes the comparison
return `false`, so two absent snapshots are always classified as changed. -/
theorem comparators_nil_equal_false :
    (∀ a : Option PortEndpoints,
      PortEndpoints.Equal none a = false ∧ PortEndpoints.Equal a none = false)
    ∧ (∀ a : Option Endpoints,
      Endpoints.Equal none a = false ∧ Endpoints.Equal a none = false)
    ∧ (∀ a : Option IngressClass,
      IngressClass.Equal none a = false ∧ IngressClass.Equal a none = false) := by
  refine ⟨fun a => ?_, fun a => ?_, fun a => ?_⟩ <;> cases a <;> exact ⟨rfl, rfl⟩

/-- C9 counterexample: two `PortEndpoints` snapshots whose `AddrNew` sets
differ (one live address versus two) compare as unchanged, because
`PortEndpoints.Equal` only checks containment of the old addresses in the
new set — refuting the claim that the comparison is a deep structural
field equality returning "changed" whenever a field differs. -/
theorem portEndpoints_equal_not_structural_cex :
    PortEndpoints.Equal
        (some ⟨80, false, 2, ["10.0.0.1"], []⟩)
        (some ⟨80, false, 2, ["10.0.0.1", "10.0.0.2"], []⟩) = true
    ∧ (["10.0.0.1"] : List String) ≠ ["10.0.0.1", "10.0.0.2"] := by
  exact ⟨rfl, by decide⟩

/-- C9 (amended): the comparators are value-based, never pointer-based:
`Service.Equal` holds for two snapshots with equal field values (in
particular it is reflexive on any service whose annotation keys are
unique, as in a Go map) and reports "changed" whenever the service name
differs; but `PortEndpoints.Equal` is a semantic endpoint-set comparison,
not a structural field equality: it reports "unchanged" exactly when the
ports and address counts agree, every non-empty configured slot address
occurs in the new address set, and the old address set is contained in the
new one — so two snapshots whose `AddrNew`/`HAProxySrvs` fields differ can
still compare as unchanged. -/
theorem change_detector_equality_amended :
    (∀ a : Service, (a.Annotations.map Prod.fst).Nodup →
      Service.Equal (some a) (some a) = true)
    ∧ (∀ a b : Service, Service.Equal (some a) (some b) = true → a.Name = b.Name)
    ∧ (∀ o n : PortEndpoints,
        PortEndpoints.Equal (some o) (some n) = true ↔
          (o.Port = n.Port ∧ o.AddrCount = n.AddrCount ∧
           (∀ s ∈ o.HAProxySrvs, s.Address ≠ "" → s.Address ∈ n.AddrNew) ∧
           (∀ k ∈ o.AddrNew, k ∈ n.AddrNew))) := by
  refine ⟨?_, ?_, ?_⟩
  · intro a hnd
    simp only [Service.Equal, Bool.and_eq_true, List.all_eq_true, beq_iff_eq]
    simp only [Prod.forall, beq_self_eq_true, and_true, true_and]
    constructor
    · intro x y hxy
      exact lookupGo_self a.Annotations (x, y) hnd hxy
    · intro x y hxy
      have h : x = y := mem_zip_self (x, y) a.Ports hxy
      subst h
      exact ⟨⟨rfl, rfl⟩, rfl⟩
  · intro a b h
    simp only [Service.Equal, Bool.and_eq_true, beq_iff_eq] at h
    exact h.1.1.1.1
  · intro o n
    simp only [PortEndpoints.Equal, Bool.and_eq_true, List.all_eq_true,
      beq_iff_eq, Bool.or_eq_true, List.elem_iff]
    constructor
    · rintro ⟨⟨⟨hP, hC⟩, hs⟩, ha⟩
      refine ⟨hP, hC, ?_, ha⟩
      intro s hsm hne
      rcases hs s hsm with h1 | h2
      · exact absurd h1 hne
      · exact h2
    · rintro ⟨hP, hC, hs, ha⟩
      refine ⟨⟨⟨hP, hC⟩, ?_⟩, ha⟩
      intro s hsm
      by_cases hne : s.Address = ""
      · exact Or.inl hne
      · exact Or.inr (hs s hsm hne)

/-- C9 witness: the amended statement evaluated at concrete snapshots —
a concrete two-port service with unique annotation keys compares equal to
itself, and the `PortEndpoints` characterization instantiated at the
counterexample pair. -/
theorem change_detector_equality_witness :
    Service.Equal
        (some ⟨"ns", "svc", [⟨"http", "TCP", 80⟩], "", [("a", "1"), ("b", "")]⟩)
        (some ⟨"ns", "svc", [⟨"http", "TCP", 80⟩], "", [("a", "1"), ("b", "")]⟩) = true
    ∧ PortEndpoints.Equal
        (some ⟨80, false, 2, ["10.0.0.1"], []⟩)
        (some ⟨80, false, 2, ["10.0.0.1", "10.0.0.2"], []⟩) = true := by
  constructor
  · exact change_detector_equality_amended.1 ⟨"ns", "svc", [⟨"http", "TCP", 80⟩], "", [("a", "1"), ("b", "")]⟩ (by decide)
  · exact (change_detector_equality_amended.2.2 ⟨80, false, 2, ["10.0.0.1"], []⟩
      ⟨80, false, 2, ["10.0.0.1", "10.0.0.2"], []⟩).mpr (by decide)

/-- Annotation lookup with both a legacy alias and the explicit slot-count
setting present and parseable (used by the C4 counterexample). -/
def annLegacyAndNew : String → String := fun n =>
  if n == "servers-increment" then "3"
  else if n == "scale-server-slots" then "5" else ""

/-- Annotation lookup with an unparseable legacy alias and a parseable
explicit setting (used by the C4 counterexample). -/
def annBadLegacyAndNew : String → String := fun n =>
  if n == "servers-increment" then "abc"
  else if n == "scale-server-slots" then "5" else ""

/-- Annotation lookup where the only present value is unparseable
(Scenario E, used by the C4 witness). -/
def annUnparseable : String → String := fun n =>
  if n == "scale-server-slots" then "abc" else ""

/-- C4 counterexample: with `servers-increment = "3"` and
`scale-server-slots = "5"` both present, the resolved minimum is `3` — the
legacy alias wins, refuting the claimed precedence of `scale-server-slots`;
and with `servers-increment = "abc"` (unparseable) and
`scale-server-slots = "5"`, the resolved minimum is `5`, not `0` — a parse
failure falls through to the next annotation instead of resolving to no
minimum. -/
theorem minSlots_precedence_cex :
    resolveSrvSlots annLegacyAndNew = 3 ∧ (3 : Int) ≠ 5
    ∧ resolveSrvSlots annBadLegacyAndNew = 5 ∧ (5 : Int) ≠ 0 := by
  refine ⟨rfl, by decide, rfl, by decide⟩

/-- C4 (amended): the minimum slot count is resolved from the first
annotation that is present and parses as an integer, in the order
`servers-increment`, `server-slots`, `scale-server-slots` — the legacy
aliases take precedence over the explicit slot-count setting; a present
value that fails integer parsing is logged and skipped in favor of the
next annotation in the list (never fatal); only when no present annotation
parses is the resolved minimum `0`, so that the pool scales only to match
the live address count. -/
theorem minSlots_precedence_amended (lookupAnn : String → String) :
    (∀ k : Int, lookupAnn "servers-increment" ≠ "" →
        atoiGo (lookupAnn "servers-increment") = some k →
        resolveSrvSlots lookupAnn = k)
    ∧ ((lookupAnn "servers-increment" = "" ∨ atoiGo (lookupAnn "servers-increment") = none) →
        ∀ k : Int, lookupAnn "server-slots" ≠ "" →
        atoiGo (lookupAnn "server-slots") = some k →
        resolveSrvSlots lookupAnn = k)
    ∧ ((lookupAnn "servers-increment" = "" ∨ atoiGo (lookupAnn "servers-increment") = none) →
        (lookupAnn "server-slots" = "" ∨ atoiGo (lookupAnn "server-slots") = none) →
        ∀ k : Int, lookupAnn "scale-server-slots" ≠ "" →
        atoiGo (lookupAnn "scale-server-slots") = some k →
        resolveSrvSlots lookupAnn = k)
    ∧ ((lookupAnn "servers-increment" = "" ∨ atoiGo (lookupAnn "servers-increment") = none) →
        (lookupAnn "server-slots" = "" ∨ atoiGo (lookupAnn "server-slots") = none) →
        (lookupAnn "scale-server-slots" = "" ∨ atoiGo (lookupAnn "scale-server-slots") = none) →
        resolveSrvSlots lookupAnn = 0) := by
  have step : ∀ (v : String) (rest : List String) (f : String → String),
      (lookupAnn v = "" ∨ atoiGo (lookupAnn v) = none) →
      annLoop lookupAnn (v :: rest) = annLoop lookupAnn rest := by
    intro v rest _ h
    rcases h with h | h
    · simp [annLoop, h]
    · by_cases hv : lookupAnn v = ""
      · simp [annLoop, hv]
      · simp [annLoop, hv, h]
  have hit : ∀ (v : String) (rest : List String) (k : Int),
      lookupAnn v ≠ "" → atoiGo (lookupAnn v) = some k →
      annLoop lookupAnn (v :: rest) = k := by
    intro v rest k hv hk
    simp [annLoop, hv, hk]
  refine ⟨?_, ?_, ?_, ?_⟩
  · intro k h1 h2
    exact hit _ _ k h1 h2
  · intro h1 k h2 h3
    rw [resolveSrvSlots, step _ _ lookupAnn h1]
    exact hit _ _ k h2 h3
  · intro h1 h2 k h3 h4
    rw [resolveSrvSlots, step _ _ lookupAnn h1, step _ _ lookupAnn h2]
    exact hit _ _ k h3 h4
  · intro h1 h2 h3
    rw [resolveSrvSlots, step _ _ lookupAnn h1, step _ _ lookupAnn h2,
      step _ _ lookupAnn h3]
    rfl

/-- C4 witness: Scenario E — the only present annotation value is "abc",
which fails parsing, so the amended statement yields a resolved minimum of
`0`. -/
theorem minSlots_precedence_witness : resolveSrvSlots annUnparseable = 0 := by
  exact (minSlots_precedence_amended annUnparseable).2.2.2
    (Or.inl rfl) (Or.inl rfl) (Or.inr rfl)

/-- One-slot pool holding its live address, not dirty (C2 witness,
Scenario C). -/
def poolOneLive : List HAProxySrv := [⟨"SRV_1", "10.0.0.1", false, 80⟩]

/-- The single live address of the one-slot scenarios. -/
def addrOneLive : AddrMap := [("10.0.0.1", ⟨"10.0.0.1", 80⟩)]

/-- One-slot pool holding its live address but still flagged `Modified`
from an earlier pass (C2 counterexample). -/
def poolOneDirty : List HAProxySrv := [⟨"SRV_1", "10.0.0.1", true, 80⟩]

/-- C2 counterexample: a pool whose single slot holds the single live
address but still carries `Modified=true` from an earlier pass.  The first
pass leaves the pool contents unchanged (so the second call runs with an
unchanged live address set, unchanged slot pool contents and no
server-options template involved), yet the second call issues two runtime
Control-Plane calls instead of zero, because the pass never clears the
`Modified` flag. -/
theorem sync_second_pass_extra_calls_cex :
    (SyncBackendSrvs "b" poolOneDirty addrOneLive noFail noFail).pool = poolOneDirty
    ∧ (SyncBackendSrvs "b" ((SyncBackendSrvs "b" poolOneDirty addrOneLive noFail noFail).pool)
        addrOneLive noFail noFail).calls =
        [RtCall.setServerAddr "b" "SRV_1" "10.0.0.1" 80,
         RtCall.setServerState "b" "SRV_1" "ready"]
    ∧ (SyncBackendSrvs "b" ((SyncBackendSrvs "b" poolOneDirty addrOneLive noFail noFail).pool)
        addrOneLive noFail noFail).calls ≠ [] := by
  exact ⟨rfl, rfl, by decide⟩

/-- C2 (amended): when the first pass leaves the slot pool contents
unchanged and the live address set is refreshed unchanged, the second
synchronization pass again leaves the pool unchanged — zero additional
slots are marked `Modified` — and it issues zero Control-Plane calls if
and only if no slot of the pool carries `Modified=true`: since the pass
never clears `Modified` flags, a slot left dirty by an earlier pass is
re-pushed on every call.  In the concrete Scenario C (a pool of one clean
slot holding the single live address) no slot is marked, no runtime call
is made, and the configuration pass over the drained address set with an
existing backend and unchanged template issues no edit/create call and
returns reload = false. -/
theorem sync_unchanged_second_pass (b : String) (pool : List HAProxySrv) (A : AddrMap)
    (hb : b ≠ "")
    (hfix : (SyncBackendSrvs b pool A noFail noFail).pool = pool) :
    (SyncBackendSrvs b ((SyncBackendSrvs b pool A noFail noFail).pool) A noFail noFail).pool
      = pool
    ∧ ((SyncBackendSrvs b ((SyncBackendSrvs b pool A noFail noFail).pool) A noFail noFail).calls
        = [] ↔ ∀ s ∈ pool, s.Modified = false)
    ∧ ((∀ s ∈ pool, s.Modified = false) →
        ∀ lookupAnn : String → String, resolveSrvSlots lookupAnn ≤ (pool.length : Int) →
        ∀ editErr : String → Option String,
          (HandleEndpoints b pool [] lookupAnn "" false false editErr).reload = false
          ∧ (HandleEndpoints b pool [] lookupAnn "" false false editErr).calls = []) := by
  rw [hfix]
  refine ⟨hfix, ?_, ?_⟩
  · rw [SyncBackendSrvs_calls b pool A noFail noFail hb, hfix]
    exact syncPush_calls_nil_iff b noFail noFail pool
  · intro hnm lookupAnn hla editErr
    have hscale : scaleHAProxySrvs pool [] lookupAnn = ⟨pool, [], false⟩ := by
      have hg := scaleGrow_of_le pool (resolveSrvSlots lookupAnn) hla
      simp [scaleHAProxySrvs, hg, scaleFill]
    constructor
    · simp [HandleEndpoints, hscale]
    · simp only [HandleEndpoints, hscale]
      refine List.flatten_eq_nil_iff.mpr ?_
      intro xs hxs
      simp only [List.mem_map] at hxs
      rcases hxs with ⟨s, hs, rfl⟩
      have hm := hnm s (by simpa using hs)
      simp [hm]

/-- C2 witness: Scenario C — one clean slot holding the single live
address; the second pass issues no runtime call and the configuration pass
reports reload = false. -/
theorem sync_unchanged_second_pass_witness :
    (SyncBackendSrvs "b" ((SyncBackendSrvs "b" poolOneLive addrOneLive noFail noFail).pool)
        addrOneLive noFail noFail).calls = []
    ∧ (HandleEndpoints "b" poolOneLive [] (fun _ => "") "" false false noFail).reload = false := by
  have h := sync_unchanged_second_pass "b" poolOneLive addrOneLive (by decide) (by rfl)
  exact ⟨h.2.1.mpr (by decide), (h.2.2 (by decide) (fun _ => "") (by decide) noFail).1⟩

lemma syncPush_calls_eq (b : String) (fa fs : String → Option String)
    (l : List HAProxySrv) :
    (syncPush b fa fs l).1 = (l.filter (fun s => s.Modified)).flatMap (pushPair b) := by
  induction l with
  | nil => rfl
  | cons s rest ih =>
    cases hm : s.Modified with
    | true =>
      rw [syncPush_cons_true b fa fs s rest hm]
      simp [List.filter_cons, hm, ih]
    | false =>
      rw [syncPush_cons_false b fa fs s rest hm]
      simp [List.filter_cons, hm, ih]

lemma pushPair_positions (b : String) (s : HAProxySrv) (pre post calls : List RtCall)
    (h : calls = pre ++ (pushPair b s ++ post)) :
    calls[pre.length]? = some (RtCall.setServerAddr b s.Name
        (if s.Address = "" then "127.0.0.1" else s.Address)
        (if s.Address = "" then 0 else s.Port))
    ∧ calls[pre.length + 1]? = some (RtCall.setServerState b s.Name
        (if s.Address = "" then "maint" else "ready")) := by
  subst h
  have h1 : ∀ (x y : RtCall) (t : List RtCall),
      (pre ++ (x :: y :: t))[pre.length]? = some x
      ∧ (pre ++ (x :: y :: t))[pre.length + 1]? = some y := by
    intro x y t
    constructor
    · rw [List.getElem?_append_right (Nat.le_refl _)]
      simp
    · rw [List.getElem?_append_right (Nat.le_succ_of_le (Nat.le_refl _))]
      simp [Nat.add_sub_cancel_left]
  by_cases ha : s.Address = ""
  · simpa [pushPair, ha] using h1 _ _ _
  · simpa [pushPair, ha] using h1 _ _ _

/-- C5: for every slot pushed during a `SyncBackendSrvs` pass the call
trace is exactly the per-slot address/state pairs of the modified slots
(in pool order), and for each modified slot there are adjacent positions
holding first the address mutation and then the state mutation — a
disabled slot is pushed as address `127.0.0.1`, port `0`, state `maint`,
an enabled slot as its real address and port with state `ready`, the
address call always preceding the state call. -/
theorem sync_push_target_and_order (b : String) (pool : List HAProxySrv) (A : AddrMap)
    (fa fs : String → Option String) (hb : b ≠ "") :
    ((SyncBackendSrvs b pool A fa fs).calls =
      (((SyncBackendSrvs b pool A fa fs).pool.filter (fun s => s.Modified)).flatMap
        (pushPair b)))
    ∧ ∀ s ∈ (SyncBackendSrvs b pool A fa fs).pool, s.Modified = true →
        ∃ i, (SyncBackendSrvs b pool A fa fs).calls[i]? =
              some (RtCall.setServerAddr b s.Name
                (if s.Address = "" then "127.0.0.1" else s.Address)
                (if s.Address = "" then 0 else s.Port))
          ∧ (SyncBackendSrvs b pool A fa fs).calls[i + 1]? =
              some (RtCall.setServerState b s.Name
                (if s.Address = "" then "maint" else "ready")) := by
  constructor
  · rw [SyncBackendSrvs_calls b pool A fa fs hb]
    exact syncPush_calls_eq b fa fs _
  · intro s hs hm
    rcases syncPush_mem_pair b fa fs _ s hs hm with ⟨pre, post, hp⟩
    have hc : (SyncBackendSrvs b pool A fa fs).calls = pre ++ (pushPair b s ++ post) := by
      rw [SyncBackendSrvs_calls b pool A fa fs hb, hp]
    exact ⟨pre.length, pushPair_positions b s pre post _ hc⟩

/-- C5 witness: Scenario B — slot `SRV_1` loses its address and is pushed
as `127.0.0.1:0`/`maint`, slot `SRV_2`... here instantiated on the final
pool of the pass: the disabled slot `SRV_1` has its address call directly
before its state call in the trace. -/
theorem sync_push_target_and_order_witness :
    ∃ i, (SyncBackendSrvs "b" [⟨"SRV_1", "10.0.0.1", false, 80⟩]
            [("10.0.0.2", ⟨"10.0.0.2", 80⟩)] noFail noFail).calls[i]? =
          some (RtCall.setServerAddr "b" "SRV_1" "10.0.0.2" 80)
      ∧ (SyncBackendSrvs "b" [⟨"SRV_1", "10.0.0.1", false, 80⟩]
            [("10.0.0.2", ⟨"10.0.0.2", 80⟩)] noFail noFail).calls[i + 1]? =
          some (RtCall.setServerState "b" "SRV_1" "ready") := by
  exact (sync_push_target_and_order "b" [⟨"SRV_1", "10.0.0.1", false, 80⟩]
    [("10.0.0.2", ⟨"10.0.0.2", 80⟩)] noFail noFail (by decide)).2
    ⟨"SRV_1", "10.0.0.2", true, 80⟩ (by decide) rfl

lemma updateHAProxySrv_edit_mem (b : String) (s : HAProxySrv) (p : Int)
    (e : String → Option String) :
    ∃ spec : ServerSpec, spec.Name = s.Name ∧
      CfgCall.edit b spec ∈ updateHAProxySrv b s p e := by
  by_cases ha : (s.Address == "") = true
  · refine ⟨⟨s.Name, "127.0.0.1", "enabled", p⟩, rfl, ?_⟩
    cases he : e s.Name with
    | none => simp [updateHAProxySrv, ha, he]
    | some msg =>
      simp only [updateHAProxySrv, ha, he, if_true]
      split <;> simp
  · refine ⟨⟨s.Name, s.Address, "disabled", p⟩, rfl, ?_⟩
    cases he : e s.Name with
    | none => simp [updateHAProxySrv, ha, he]
    | some msg =>
      simp only [updateHAProxySrv, ha, he, if_false]
      split <;> simp

/-- C6: in a `HandleEndpoints` pass, when the backend is new or when the
server-options template comparison (against the previously applied
template) reports a difference, an edit push is issued for every slot of
the pool — not only for the modified ones; and the pass returns
reload = true exactly when the scaling step signalled a reload (the pool
was scaled) or the template comparison on a pre-existing backend reported
a change. -/
theorem handle_repush_and_reload (b : String) (pool : List HAProxySrv) (A : AddrMap)
    (lookupAnn : String → String) (dns : String) (newBackend tmplDiff : Bool)
    (editErr : String → Option String) :
    ((newBackend || (!newBackend && tmplDiff)) = true →
      ∀ s ∈ (HandleEndpoints b pool A lookupAnn dns newBackend tmplDiff editErr).pool,
        ∃ spec : ServerSpec, spec.Name = s.Name ∧
          CfgCall.edit b spec ∈
            (HandleEndpoints b pool A lookupAnn dns newBackend tmplDiff editErr).calls)
    ∧ ((HandleEndpoints b pool A lookupAnn dns newBackend tmplDiff editErr).reload = true ↔
        ((dns = "" ∧ (scaleHAProxySrvs pool A lookupAnn).reload = true)
          ∨ (newBackend = false ∧ tmplDiff = true))) := by
  constructor
  · intro hcond s hs
    have hpush : (if s.Modified || newBackend || (!newBackend && tmplDiff) then
        updateHAProxySrv b s s.Port editErr else []) = updateHAProxySrv b s s.Port editErr := by
      cases hnb : newBackend with
      | true => simp [hnb]
      | false =>
        rw [hnb] at hcond
        have ht : tmplDiff = true := by simpa using hcond
        simp [hnb, ht]
    rcases updateHAProxySrv_edit_mem b s s.Port editErr with ⟨spec, hname, hmem⟩
    refine ⟨spec, hname, ?_⟩
    simp only [HandleEndpoints]
    refine List.mem_flatten.mpr ⟨updateHAProxySrv b s s.Port editErr, ?_, hmem⟩
    refine List.mem_map.mpr ⟨s, ?_, hpush⟩
    simpa [HandleEndpoints] using hs
  · by_cases hdns : dns = ""
    · simp only [HandleEndpoints, hdns]
      cases newBackend <;> cases tmplDiff <;>
        simp [hdns, Bool.or_eq_true]
    · have hdnsb : (dns == "") = false := by
        rw [beq_eq_false_iff_ne]
        exact hdns
      simp only [HandleEndpoints, hdnsb]
      cases newBackend <;> cases tmplDiff <;> simp [hdns]

/-- C6 witness: a brand-new backend with a one-slot pool whose slot is not
modified — the slot is nevertheless pushed with an edit call. -/
theorem handle_repush_and_reload_witness :
    ∃ spec : ServerSpec, spec.Name = "SRV_1" ∧
      CfgCall.edit "b" spec ∈
        (HandleEndpoints "b" poolOneLive [] (fun _ => "") "" true false noFail).calls := by
  exact (handle_repush_and_reload "b" poolOneLive [] (fun _ => "") "" true false noFail).1
    (by decide) ⟨"SRV_1", "10.0.0.1", false, 80⟩ (by decide)

lemma syncPush_errs_nil_iff (b : String) (fa fs : String → Option String)
    (l : List HAProxySrv) :
    (syncPush b fa fs l).2 = [] ↔
      ∀ s ∈ l, s.Modified = true → fa s.Name = none ∧ fs s.Name = none := by
  induction l with
  | nil => simp [syncPush]
  | cons s rest ih =>
    cases hm : s.Modified with
    | false =>
      rw [syncPush_cons_false b fa fs s rest hm, ih]
      constructor
      · intro h t ht hmt
        rcases List.mem_cons.mp ht with rfl | ht'
        · rw [hm] at hmt
          cases hmt
        · exact h t ht' hmt
      · intro h t ht hmt
        exact h t (List.mem_cons_of_mem s ht) hmt
    | true =>
      rw [syncPush_cons_true b fa fs s rest hm]
      cases hfa : fa s.Name with
      | some m =>
        simp only [hfa, Option.isSome_some, Bool.true_or, if_true]
        constructor
        · intro h
          exfalso
          rcases List.append_eq_nil.mp h with ⟨h1, _⟩
          cases hfs : fs s.Name <;> simp [errsAdd, hfs] at h1
        · intro h
          have := (h s (List.mem_cons_self s rest) hm).1
          rw [hfa] at this
          cases this
      | none =>
        cases hfs : fs s.Name with
        | some m =>
          simp only [hfa, hfs, Option.isSome_some, Option.isSome_none, Bool.or_true, if_true]
          constructor
          · intro h
            exfalso
            rcases List.append_eq_nil.mp h with ⟨h1, _⟩
            simp [errsAdd] at h1
          · intro h
            have := (h s (List.mem_cons_self s rest) hm).2
            rw [hfs] at this
            cases this
        | none =>
          simp only [hfa, hfs, Option.isSome_none, Bool.or_self, Bool.false_eq_true,
            if_false, List.nil_append]
          rw [ih]
          constructor
          · intro h t ht hmt
            rcases List.mem_cons.mp ht with rfl | ht'
            · exact ⟨hfa, hfs⟩
            · exact h t ht' hmt
          · intro h t ht hmt
            exact h t (List.mem_cons_of_mem s ht) hmt

lemma syncPush_errs_mem (b : String) (fa fs : String → Option String)
    (l : List HAProxySrv) (s : HAProxySrv) (hs : s ∈ l) (hm : s.Modified = true)
    (m : String) (hme : fa s.Name = some m ∨ fs s.Name = some m) :
    m ∈ (syncPush b fa fs l).2 := by
  induction l with
  | nil => cases hs
  | cons t rest ih =>
    rcases List.mem_cons.mp hs with rfl | hs'
    · rw [syncPush_cons_true b fa fs s rest hm]
      refine List.mem_append.mpr (Or.inl ?_)
      rcases hme with h | h
      · rw [h]
        cases hfs : fs s.Name <;> simp [errsAdd, hfs]
      · rw [h]
        cases hfa : fa s.Name <;> simp [errsAdd, hfa]
    · cases hmt : t.Modified with
      | true =>
        rw [syncPush_cons_true b fa fs t rest hmt]
        exact List.mem_append.mpr (Or.inr (ih hs'))
      | false =>
        rw [syncPush_cons_false b fa fs t rest hmt]
        exact ih hs'

/-- C8: failures of the runtime push are per-slot and never abort the
pass — the call trace and the returned pool are the same as in a failure
free pass, so a slot whose mutation failed is still flagged `Modified` in
the returned pool and is retried next pass; the pass returns no error
exactly when no pushed slot's address or state call failed, and every
failure message is collected into the single composite error returned to
the caller; and when a configuration edit fails with an error containing
"does not exist", `updateHAProxySrv` issues a create call with the very
same server spec (this path returns no error at all — the edit fallback is
only logged, never aggregated). -/
theorem sync_error_aggregation (b : String) (pool : List HAProxySrv) (A : AddrMap)
    (fa fs : String → Option String) (hb : b ≠ "") :
    (SyncBackendSrvs b pool A fa fs).pool = (SyncBackendSrvs b pool A noFail noFail).pool
    ∧ (SyncBackendSrvs b pool A fa fs).calls = (SyncBackendSrvs b pool A noFail noFail).calls
    ∧ ((SyncBackendSrvs b pool A fa fs).errs = none ↔
        ∀ s ∈ (SyncBackendSrvs b pool A fa fs).pool, s.Modified = true →
          fa s.Name = none ∧ fs s.Name = none)
    ∧ (∀ s ∈ (SyncBackendSrvs b pool A fa fs).pool, s.Modified = true →
        ∀ m : String, (fa s.Name = some m ∨ fs s.Name = some m) →
        ∃ L, (SyncBackendSrvs b pool A fa fs).errs = some L ∧ m ∈ L)
    ∧ (∀ (slot : HAProxySrv) (port : Int) (e : String → Option String) (msg : String),
        e slot.Name = some msg → goContains msg "does not exist" = true →
        ∃ spec : ServerSpec,
          updateHAProxySrv b slot port e = [CfgCall.edit b spec, CfgCall.create b spec]) := by
  have hpool : (SyncBackendSrvs b pool A fa fs).pool
      = (SyncBackendSrvs b pool A noFail noFail).pool := by
    rw [SyncBackendSrvs_pool b pool A fa fs hb, SyncBackendSrvs_pool b pool A noFail noFail hb]
  refine ⟨hpool, ?_, ?_, ?_, ?_⟩
  · rw [SyncBackendSrvs_calls b pool A fa fs hb,
      SyncBackendSrvs_calls b pool A noFail noFail hb, hpool]
    exact syncPush_calls_indep b fa fs noFail noFail _
  · rw [SyncBackendSrvs_errs b pool A fa fs hb]
    unfold errorsResult
    constructor
    · intro h
      rw [← syncPush_errs_nil_iff b fa fs _]
      by_cases he : (syncPush b fa fs (SyncBackendSrvs b pool A fa fs).pool).2 = []
      · exact he
      · rw [if_neg (by simpa [List.isEmpty_iff] using he)] at h
        cases h
    · intro h
      rw [if_pos (by simp [List.isEmpty_iff, (syncPush_errs_nil_iff b fa fs _).mpr h])]
  · intro s hs hm m hme
    have hmem := syncPush_errs_mem b fa fs _ s hs hm m hme
    rw [SyncBackendSrvs_errs b pool A fa fs hb]
    unfold errorsResult
    refine ⟨(syncPush b fa fs (SyncBackendSrvs b pool A fa fs).pool).2, ?_, hmem⟩
    rw [if_neg]
    simp only [List.isEmpty_iff]
    intro hnil
    rw [hnil] at hmem
    cases hmem
  · intro slot port e msg he hcont
    by_cases ha : (slot.Address == "") = true
    · exact ⟨⟨slot.Name, "127.0.0.1", "enabled", port⟩, by
        simp [updateHAProxySrv, ha, he, hcont]⟩
    · exact ⟨⟨slot.Name, slot.Address, "disabled", port⟩, by
        simp [updateHAProxySrv, ha, he, hcont]⟩

/-- C8 witness: a pass over a dirty slot whose address call fails with
"boom" — the aggregated composite contains the message; and a concrete
edit reply "server does not exist" leads to an edit-then-create pair with
the same spec. -/
theorem sync_error_aggregation_witness :
    (∃ L, (SyncBackendSrvs "b" poolOneDirty addrOneLive
        (fun n => if n == "SRV_1" then some "boom" else none) noFail).errs = some L
      ∧ "boom" ∈ L)
    ∧ ∃ spec : ServerSpec,
        updateHAProxySrv "b" ⟨"SRV_1", "10.0.0.1", true, 80⟩ 80
            (fun _ => some "server does not exist")
          = [CfgCall.edit "b" spec, CfgCall.create "b" spec] := by
  constructor
  · exact (sync_error_aggregation "b" poolOneDirty addrOneLive
      (fun n => if n == "SRV_1" then some "boom" else none) noFail (by decide)).2.2.2.1
      ⟨"SRV_1", "10.0.0.1", true, 80⟩ (by decide) rfl "boom" (Or.inl rfl)
  · exact (sync_error_aggregation "b" poolOneDirty addrOneLive
      (fun n => if n == "SRV_1" then some "boom" else none) noFail (by decide)).2.2.2.2
      ⟨"SRV_1", "10.0.0.1", true, 80⟩ 80 (fun _ => some "server does not exist")
      "server does not exist" rfl (by decide)

lemma setSrvAddr_length (pool : List HAProxySrv) (j : Nat) (a : Address) :
    (setSrvAddr pool j a).length = pool.length := by
  unfold setSrvAddr
  cases h : pool[j]? <;> simp

lemma setSrvAddr_get_ne (pool : List HAProxySrv) (j j' : Nat) (a : Address)
    (h : j ≠ j') : (setSrvAddr pool j a)[j']? = pool[j']? := by
  unfold setSrvAddr
  cases hj : pool[j]? with
  | none => rfl
  | some s => exact List.getElem?_set_ne h

lemma setSrvAddr_get_self (pool : List HAProxySrv) (j : Nat) (a : Address)
    (h : j < pool.length) :
    (setSrvAddr pool j a)[j]? = (pool[j]?).map
      (fun s => { s with Address := a.Address, Modified := true, Port := a.Port }) := by
  unfold setSrvAddr
  cases hj : pool[j]? with
  | none => exact absurd (List.getElem?_eq_none_iff.mp hj) (Nat.not_le.mpr h)
  | some s =>
    rw [List.getElem?_set_eq_of_lt _ h]
    rfl

lemma setSrvAddr_name (pool : List HAProxySrv) (j : Nat) (a : Address) (j' : Nat) :
    ((setSrvAddr pool j a)[j']?).map HAProxySrv.Name
      = (pool[j']?).map HAProxySrv.Name := by
  by_cases h : j = j'
  · subst h
    by_cases hl : j < pool.length
    · rw [setSrvAddr_get_self pool j a hl]
      cases pool[j]? <;> rfl
    · have hn : pool[j]? = none := List.getElem?_eq_none_iff.mpr (Nat.not_lt.mp hl)
      simp [setSrvAddr, hn]
  · rw [setSrvAddr_get_ne pool j j' a h]

lemma setScaleSlot_length (pool : List HAProxySrv) (j : Nat) (k : String) (a : Address) :
    (setScaleSlot pool j k a).length = pool.length := by
  unfold setScaleSlot
  cases h : pool[j]? <;> simp

lemma setScaleSlot_get_ne (pool : List HAProxySrv) (j j' : Nat) (k : String) (a : Address)
    (h : j ≠ j') : (setScaleSlot pool j k a)[j']? = pool[j']? := by
  unfold setScaleSlot
  cases hj : pool[j]? with
  | none => rfl
  | some s => exact List.getElem?_set_ne h

lemma setScaleSlot_get_self (pool : List HAProxySrv) (j : Nat) (k : String) (a : Address)
    (h : j < pool.length) :
    (setScaleSlot pool j k a)[j]? = (pool[j]?).map
      (fun s => { s with Address := k, Modified := true, Port := a.Port }) := by
  unfold setScaleSlot
  cases hj : pool[j]? with
  | none => exact absurd (List.getElem?_eq_none_iff.mp hj) (Nat.not_le.mpr h)
  | some s =>
    rw [List.getElem?_set_eq_of_lt _ h]
    rfl

lemma setScaleSlot_name (pool : List HAProxySrv) (j : Nat) (k : String) (a : Address)
    (j' : Nat) :
    ((setScaleSlot pool j k a)[j']?).map HAProxySrv.Name
      = (pool[j']?).map HAProxySrv.Name := by
  by_cases h : j = j'
  · subst h
    by_cases hl : j < pool.length
    · rw [setScaleSlot_get_self pool j k a hl]
      cases pool[j]? <;> rfl
    · have hn : pool[j]? = none := List.getElem?_eq_none_iff.mpr (Nat.not_lt.mp hl)
      simp [setScaleSlot, hn]
  · rw [setScaleSlot_get_ne pool j j' k a h]

lemma syncScan_cons_pos (i : Nat) (s : HAProxySrv) (rest : List HAProxySrv) (A : AddrMap)
    (h : A.hasKey s.Address = true) :
    syncScan i (s :: rest) A =
      ⟨s :: (syncScan (i + 1) rest (A.delKey s.Address)).pool,
       (syncScan (i + 1) rest (A.delKey s.Address)).addrs,
       (syncScan (i + 1) rest (A.delKey s.Address)).disabled⟩ := by
  simp [syncScan, h]

lemma syncScan_cons_neg (i : Nat) (s : HAProxySrv) (rest : List HAProxySrv) (A : AddrMap)
    (h : A.hasKey s.Address = false) :
    syncScan i (s :: rest) A =
      ⟨{ s with Address := "", Modified := true } :: (syncScan (i + 1) rest A).pool,
       (syncScan (i + 1) rest A).addrs,
       i :: (syncScan (i + 1) rest A).disabled⟩ := by
  simp [syncScan, h]

lemma syncScan_pool_length (pool : List HAProxySrv) :
    ∀ (i : Nat) (A : AddrMap), (syncScan i pool A).pool.length = pool.length := by
  induction pool with
  | nil => intro i A; rfl
  | cons s rest ih =>
    intro i A
    cases h : A.hasKey s.Address with
    | true => rw [syncScan_cons_pos _ _ _ _ h]; simp [ih]
    | false => rw [syncScan_cons_neg _ _ _ _ h]; simp [ih]

lemma syncScan_pool_name (pool : List HAProxySrv) :
    ∀ (i : Nat) (A : AddrMap) (j : Nat),
      ((syncScan i pool A).pool[j]?).map HAProxySrv.Name
        = (pool[j]?).map HAProxySrv.Name := by
  induction pool with
  | nil => intro i A j; rfl
  | cons s rest ih =>
    intro i A j
    cases h : A.hasKey s.Address with
    | true =>
      rw [syncScan_cons_pos _ _ _ _ h]
      cases j with
      | zero => simp
      | succ j => simpa using ih (i + 1) (A.delKey s.Address) j
    | false =>
      rw [syncScan_cons_neg _ _ _ _ h]
      cases j with
      | zero => simp
      | succ j => simpa using ih (i + 1) A j

lemma syncFill_pool_length : ∀ (A : AddrMap) (d : List Nat) (pool : List HAProxySrv),
    (syncFill pool A d).1.length = pool.length := by
  intro A
  induction A with
  | nil => intro d pool; cases d <;> rfl
  | cons p A ih =>
    intro d pool
    obtain ⟨k, a⟩ := p
    cases d with
    | nil => rfl
    | cons j ds =>
      have hstep : syncFill pool ((k, a) :: A) (j :: ds)
          = syncFill (setSrvAddr pool j a) A ds := rfl
      rw [hstep, ih ds (setSrvAddr pool j a), setSrvAddr_length]

lemma syncFill_pool_name : ∀ (A : AddrMap) (d : List Nat) (pool : List HAProxySrv) (j' : Nat),
    ((syncFill pool A d).1[j']?).map HAProxySrv.Name = (pool[j']?).map HAProxySrv.Name := by
  intro A
  induction A with
  | nil => intro d pool j'; cases d <;> rfl
  | cons p A ih =>
    intro d pool j'
    obtain ⟨k, a⟩ := p
    cases d with
    | nil => rfl
    | cons j ds =>
      have hstep : syncFill pool ((k, a) :: A) (j :: ds)
          = syncFill (setSrvAddr pool j a) A ds := rfl
      rw [hstep, ih ds (setSrvAddr pool j a) j', setSrvAddr_name]

lemma syncFill_get_of_not_mem : ∀ (A : AddrMap) (d : List Nat) (pool : List HAProxySrv)
    (j' : Nat), (∀ x ∈ d, x ≠ j') → (syncFill pool A d).1[j']? = pool[j']? := by
  intro A
  induction A with
  | nil => intro d pool j' _; cases d <;> rfl
  | cons p A ih =>
    intro d pool j' hd
    obtain ⟨k, a⟩ := p
    cases d with
    | nil => rfl
    | cons j ds =>
      have hstep : syncFill pool ((k, a) :: A) (j :: ds)
          = syncFill (setSrvAddr pool j a) A ds := rfl
      rw [hstep, ih ds (setSrvAddr pool j a) j'
        (fun x hx => hd x (List.mem_cons_of_mem j hx))]
      exact setSrvAddr_get_ne pool j j' a (hd j (List.mem_cons_self j ds))

lemma delKey_hasKey_imp (A : AddrMap) (k k' : String)
    (h : (A.delKey k').hasKey k = true) : A.hasKey k = true := by
  rcases List.any_eq_true.mp h with ⟨p, hp, hk⟩
  exact List.any_eq_true.mpr ⟨p, List.mem_of_mem_filter hp, hk⟩

lemma delKey_hasKey_self (A : AddrMap) (k : String) :
    (A.delKey k).hasKey k = false := by
  rw [Bool.eq_false_iff]
  intro h
  rcases List.any_eq_true.mp h with ⟨p, hp, hk⟩
  simp only [AddrMap.delKey] at hp
  have h1 : (p.1 != k) = true := (List.mem_filter.mp hp).2
  rw [beq_iff_eq] at hk
  rw [bne_iff_ne] at h1
  exact h1 hk

lemma delKey_hasKey_ne (A : AddrMap) (k k' : String) (h : k ≠ k') :
    (A.delKey k').hasKey k = A.hasKey k := by
  cases hA : A.hasKey k with
  | true =>
    rcases List.any_eq_true.mp hA with ⟨p, hp, hk⟩
    refine List.any_eq_true.mpr ⟨p, ?_, hk⟩
    simp only [AddrMap.delKey]
    refine List.mem_filter.mpr ⟨hp, ?_⟩
    rw [beq_iff_eq] at hk
    rw [bne_iff_ne]
    rw [hk]
    exact h
  | false =>
    cases hD : (A.delKey k').hasKey k with
    | false => rfl
    | true =>
      rw [delKey_hasKey_imp A k k' hD] at hA
      cases hA

lemma syncScan_addrs_imp (pool : List HAProxySrv) :
    ∀ (i : Nat) (A : AddrMap) (k : String),
      ((syncScan i pool A).addrs.hasKey k = true) → A.hasKey k = true := by
  induction pool with
  | nil => intro i A k h; exact h
  | cons s rest ih =>
    intro i A k h
    cases hk : A.hasKey s.Address with
    | true =>
      rw [syncScan_cons_pos _ _ _ _ hk] at h
      exact delKey_hasKey_imp A k s.Address (ih (i + 1) (A.delKey s.Address) k h)
    | false =>
      rw [syncScan_cons_neg _ _ _ _ hk] at h
      exact ih (i + 1) A k h

lemma syncScan_disabled_lb (pool : List HAProxySrv) :
    ∀ (i : Nat) (A : AddrMap) (x : Nat),
      x ∈ (syncScan i pool A).disabled → i ≤ x := by
  induction pool with
  | nil => intro i A x h; cases h
  | cons s rest ih =>
    intro i A x h
    cases hk : A.hasKey s.Address with
    | true =>
      rw [syncScan_cons_pos _ _ _ _ hk] at h
      exact Nat.le_of_succ_le (ih (i + 1) (A.delKey s.Address) x h)
    | false =>
      rw [syncScan_cons_neg _ _ _ _ hk] at h
      rcases List.mem_cons.mp h with rfl | h'
      · exact Nat.le_refl x
      · exact Nat.le_of_succ_le (ih (i + 1) A x h')

lemma syncScan_disabled_lt (pool : List HAProxySrv) :
    ∀ (i : Nat) (A : AddrMap) (x : Nat),
      x ∈ (syncScan i pool A).disabled → x < i + pool.length := by
  induction pool with
  | nil => intro i A x h; cases h
  | cons s rest ih =>
    intro i A x h
    cases hk : A.hasKey s.Address with
    | true =>
      rw [syncScan_cons_pos _ _ _ _ hk] at h
      have := ih (i + 1) (A.delKey s.Address) x h
      simp only [List.length_cons]
      omega
    | false =>
      rw [syncScan_cons_neg _ _ _ _ hk] at h
      rcases List.mem_cons.mp h with rfl | h'
      · simp only [List.length_cons]
        omega
      · have := ih (i + 1) A x h'
        simp only [List.length_cons]
        omega

lemma syncScan_disabled_chain (pool : List HAProxySrv) :
    ∀ (i : Nat) (A : AddrMap),
      List.Chain' (· < ·) (syncScan i pool A).disabled := by
  induction pool with
  | nil => intro i A; exact List.chain'_nil
  | cons s rest ih =>
    intro i A
    cases hk : A.hasKey s.Address with
    | true =>
      rw [syncScan_cons_pos _ _ _ _ hk]
      exact ih (i + 1) (A.delKey s.Address)
    | false =>
      rw [syncScan_cons_neg _ _ _ _ hk]
      refine List.chain'_cons'.mpr ⟨?_, ih (i + 1) A⟩
      intro y hy
      have hmem : y ∈ (syncScan (i + 1) rest A).disabled := List.mem_of_mem_head? hy
      have := syncScan_disabled_lb rest (i + 1) A y hmem
      omega

lemma scaleGrowAux_spec : ∀ (fuel : Nat) (pool : List HAProxySrv) (m : Int),
    fuel = (m - pool.length).toNat →
    scaleGrowAux m fuel pool =
      (pool ++ (List.range' (pool.length + 1) fuel).map
          (fun n => ⟨srvName n, "", true, 0⟩),
       List.range' pool.length fuel,
       decide (0 < fuel)) := by
  intro fuel
  induction fuel with
  | zero => intro pool m _; simp [scaleGrowAux]
  | succ fuel ih =>
    intro pool m h
    have hlt : (pool.length : Int) < m := by omega
    have h2 : fuel
        = (m - (pool ++ [(⟨srvName (pool.length + 1), "", true, 0⟩ : HAProxySrv)]).length).toNat := by
      simp only [List.length_append, List.length_cons, List.length_nil]
      omega
    simp only [scaleGrowAux, if_pos hlt]
    have ihx := ih (pool ++ [(⟨srvName (pool.length + 1), "", true, 0⟩ : HAProxySrv)]) m h2
    rw [ihx]
    refine Prod.ext ?_ (Prod.ext ?_ ?_)
    · show (pool ++ [(⟨srvName (pool.length + 1), "", true, 0⟩ : HAProxySrv)])
          ++ (List.range' ((pool ++ [(⟨srvName (pool.length + 1), "", true, 0⟩ : HAProxySrv)]).length + 1) fuel).map
            (fun n => ⟨srvName n, "", true, 0⟩)
        = pool ++ (List.range' (pool.length + 1) (fuel + 1)).map (fun n => ⟨srvName n, "", true, 0⟩)
      rw [List.range'_succ]
      simp [List.append_assoc, List.length_append]
    · show pool.length :: List.range' ((pool ++ [(⟨srvName (pool.length + 1), "", true, 0⟩ : HAProxySrv)]).length) fuel
        = List.range' pool.length (fuel + 1)
      rw [List.range'_succ]
      simp [List.length_append]
    · simp

lemma scaleGrow_spec (pool : List HAProxySrv) (m : Int) :
    scaleGrow pool m =
      (pool ++ (List.range' (pool.length + 1) (m - pool.length).toNat).map
          (fun n => ⟨srvName n, "", true, 0⟩),
       List.range' pool.length (m - pool.length).toNat,
       decide (0 < (m - pool.length).toNat)) :=
  scaleGrowAux_spec _ pool m rfl

lemma scaleFill_length : ∀ (A : AddrMap) (d : List Nat) (pool : List HAProxySrv),
    (scaleFill pool A d).1.length = pool.length + (A.length - d.length) := by
  intro A
  induction A with
  | nil => intro d pool; cases d <;> simp [scaleFill]
  | cons p A ih =>
    intro d pool
    obtain ⟨k, a⟩ := p
    cases d with
    | nil =>
      have hstep : scaleFill pool ((k, a) :: A) []
          = ((scaleFill (pool ++ [⟨srvName (pool.length + 1), k, true, a.Port⟩]) A []).1,
             true) := rfl
      rw [hstep]
      simp only []
      rw [ih [] (pool ++ [(⟨srvName (pool.length + 1), k, true, a.Port⟩ : HAProxySrv)])]
      simp only [List.length_append, List.length_cons, List.length_nil]
      omega
    | cons j ds =>
      have hstep : scaleFill pool ((k, a) :: A) (j :: ds)
          = scaleFill (setScaleSlot pool j k a) A ds := rfl
      rw [hstep, ih ds (setScaleSlot pool j k a), setScaleSlot_length]
      simp only [List.length_cons]
      omega

lemma scaleFill_name_front : ∀ (A : AddrMap) (d : List Nat) (pool : List HAProxySrv)
    (j' : Nat), j' < pool.length →
    ((scaleFill pool A d).1[j']?).map HAProxySrv.Name = (pool[j']?).map HAProxySrv.Name := by
  intro A
  induction A with
  | nil => intro d pool j' _; cases d <;> rfl
  | cons p A ih =>
    intro d pool j' hj
    obtain ⟨k, a⟩ := p
    cases d with
    | nil =>
      have hstep : scaleFill pool ((k, a) :: A) []
          = ((scaleFill (pool ++ [⟨srvName (pool.length + 1), k, true, a.Port⟩]) A []).1,
             true) := rfl
      rw [hstep]
      have hj2 : j' < (pool ++ [(⟨srvName (pool.length + 1), k, true, a.Port⟩ : HAProxySrv)]).length := by
        simp only [List.length_append, List.length_cons, List.length_nil]
        omega
      rw [show ((scaleFill (pool ++ [⟨srvName (pool.length + 1), k, true, a.Port⟩]) A []).1, true).1
          = (scaleFill (pool ++ [⟨srvName (pool.length + 1), k, true, a.Port⟩]) A []).1 from rfl]
      rw [ih [] (pool ++ [(⟨srvName (pool.length + 1), k, true, a.Port⟩ : HAProxySrv)]) j' hj2]
      rw [List.getElem?_append_left hj]
    | cons j ds =>
      have hstep : scaleFill pool ((k, a) :: A) (j :: ds)
          = scaleFill (setScaleSlot pool j k a) A ds := rfl
      rw [hstep]
      have hj2 : j' < (setScaleSlot pool j k a).length := by
        rw [setScaleSlot_length]
        exact hj
      rw [ih ds (setScaleSlot pool j k a) j' hj2, setScaleSlot_name]

lemma scaleFill_get_of_not_mem : ∀ (A : AddrMap) (d : List Nat) (pool : List HAProxySrv)
    (j' : Nat), j' < pool.length → (∀ x ∈ d, x ≠ j') →
    (scaleFill pool A d).1[j']? = pool[j']? := by
  intro A
  induction A with
  | nil => intro d pool j' _ _; cases d <;> rfl
  | cons p A ih =>
    intro d pool j' hj hd
    obtain ⟨k, a⟩ := p
    cases d with
    | nil =>
      have hstep : scaleFill pool ((k, a) :: A) []
          = ((scaleFill (pool ++ [⟨srvName (pool.length + 1), k, true, a.Port⟩]) A []).1,
             true) := rfl
      rw [hstep]
      have hj2 : j' < (pool ++ [(⟨srvName (pool.length + 1), k, true, a.Port⟩ : HAProxySrv)]).length := by
        simp only [List.length_append, List.length_cons, List.length_nil]
        omega
      rw [show ((scaleFill (pool ++ [⟨srvName (pool.length + 1), k, true, a.Port⟩]) A []).1, true).1
          = (scaleFill (pool ++ [⟨srvName (pool.length + 1), k, true, a.Port⟩]) A []).1 from rfl]
      rw [ih [] (pool ++ [(⟨srvName (pool.length + 1), k, true, a.Port⟩ : HAProxySrv)]) j' hj2
        (fun x hx => absurd hx (List.not_mem_nil x))]
      rw [List.getElem?_append_left hj]
    | cons j ds =>
      have hstep : scaleFill pool ((k, a) :: A) (j :: ds)
          = scaleFill (setScaleSlot pool j k a) A ds := rfl
      rw [hstep]
      have hj2 : j' < (setScaleSlot pool j k a).length := by
        rw [setScaleSlot_length]
        exact hj
      rw [ih ds (setScaleSlot pool j k a) j' hj2
        (fun x hx => hd x (List.mem_cons_of_mem j hx))]
      exact setScaleSlot_get_ne pool j j' k a (hd j (List.mem_cons_self j ds))

lemma scaleFill_assigned : ∀ (A : AddrMap) (d : List Nat) (pool : List HAProxySrv)
    (i j : Nat) (k : String) (a : Address),
    d[i]? = some j → A[i]? = some (k, a) → d.Nodup → (∀ x ∈ d, x < pool.length) →
    (scaleFill pool A d).1[j]? = (pool[j]?).map
      (fun s => { s with Address := k, Modified := true, Port := a.Port }) := by
  intro A
  induction A with
  | nil =>
    intro d pool i j k a _ hA
    simp at hA
  | cons p A ih =>
    intro d pool i j k a hd hA hnd hbnd
    obtain ⟨k', a'⟩ := p
    cases d with
    | nil => simp at hd
    | cons j' ds =>
      have hstep : scaleFill pool ((k', a') :: A) (j' :: ds)
          = scaleFill (setScaleSlot pool j' k' a') A ds := rfl
      rw [hstep]
      rw [List.nodup_cons] at hnd
      cases i with
      | zero =>
        have hj : j = j' := by
          simp only [List.getElem?_cons_zero, Option.some_inj] at hd
          exact hd.symm
        have hka : k = k' ∧ a = a' := by
          simp only [List.getElem?_cons_zero, Option.some_inj] at hA
          have h3 := hA.symm
          rw [Prod.mk.injEq] at h3
          exact h3
        obtain ⟨hk, ha⟩ := hka
        subst hj
        subst hk
        subst ha
        have hjlen : j < pool.length := hbnd j (List.mem_cons_self j ds)
        rw [scaleFill_get_of_not_mem A ds (setScaleSlot pool j k a) j
          (by rw [setScaleSlot_length]; exact hjlen)
          (fun x hx => fun he => hnd.1 (he ▸ hx))]
        exact setScaleSlot_get_self pool j k a hjlen
      | succ i =>
        simp only [List.getElem?_cons_succ] at hd hA
        have hbnd2 : ∀ x ∈ ds, x < (setScaleSlot pool j' k' a').length := by
          intro x hx
          rw [setScaleSlot_length]
          exact hbnd x (List.mem_cons_of_mem j' hx)
        rw [ih ds (setScaleSlot pool j' k' a') i j k a hd hA hnd.2 hbnd2]
        have hjne : j' ≠ j := by
          intro he
          exact hnd.1 (he ▸ List.getElem?_mem hd)
        rw [setScaleSlot_get_ne pool j' j k' a' hjne]

lemma scaleFill_unassigned : ∀ (A : AddrMap) (d : List Nat) (pool : List HAProxySrv)
    (i j : Nat), d[i]? = some j → A.length ≤ i → d.Nodup → (∀ x ∈ d, x < pool.length) →
    (scaleFill pool A d).1[j]? = pool[j]? := by
  intro A
  induction A with
  | nil => intro d pool i j _ _ _ _; cases d <;> rfl
  | cons p A ih =>
    intro d pool i j hd hlen hnd hbnd
    obtain ⟨k', a'⟩ := p
    cases d with
    | nil => simp at hd
    | cons j' ds =>
      have hstep : scaleFill pool ((k', a') :: A) (j' :: ds)
          = scaleFill (setScaleSlot pool j' k' a') A ds := rfl
      rw [hstep]
      rw [List.nodup_cons] at hnd
      cases i with
      | zero => simp at hlen
      | succ i =>
        simp only [List.getElem?_cons_succ] at hd
        have hbnd2 : ∀ x ∈ ds, x < (setScaleSlot pool j' k' a').length := by
          intro x hx
          rw [setScaleSlot_length]
          exact hbnd x (List.mem_cons_of_mem j' hx)
        rw [ih ds (setScaleSlot pool j' k' a') i j hd (by simpa using hlen) hnd.2 hbnd2]
        have hjne : j' ≠ j := by
          intro he
          exact hnd.1 (he ▸ List.getElem?_mem hd)
        exact setScaleSlot_get_ne pool j' j k' a' hjne

lemma scaleFill_minted : ∀ (A : AddrMap) (d : List Nat) (pool : List HAProxySrv)
    (i : Nat) (k : String) (a : Address),
    A[i]? = some (k, a) → d.length ≤ i →
    (scaleFill pool A d).1[pool.length + (i - d.length)]? =
      some ⟨srvName (pool.length + (i - d.length) + 1), k, true, a.Port⟩ := by
  intro A
  induction A with
  | nil => intro d pool i k a hA _; simp at hA
  | cons p A ih =>
    intro d pool i k a hA hlen
    obtain ⟨k', a'⟩ := p
    cases d with
    | cons j ds =>
      cases i with
      | zero => simp at hlen
      | succ i =>
        have hstep : scaleFill pool ((k', a') :: A) (j :: ds)
            = scaleFill (setScaleSlot pool j k' a') A ds := rfl
        rw [hstep]
        simp only [List.getElem?_cons_succ] at hA
        have hlen2 : ds.length ≤ i := by simpa using hlen
        have := ih ds (setScaleSlot pool j k' a') i k a hA hlen2
        rw [setScaleSlot_length] at this
        simpa [Nat.succ_sub_succ] using this
    | nil =>
      cases i with
      | zero =>
        have hka : k = k' ∧ a = a' := by
          simp only [List.getElem?_cons_zero, Option.some_inj] at hA
          have h3 := hA.symm
          rw [Prod.mk.injEq] at h3
          exact h3
        obtain ⟨hk, ha⟩ := hka
        subst hk
        subst ha
        have hstep : scaleFill pool ((k, a) :: A) []
            = ((scaleFill (pool ++ [⟨srvName (pool.length + 1), k, true, a.Port⟩]) A []).1,
               true) := rfl
        rw [hstep]
        rw [show ((scaleFill (pool ++ [⟨srvName (pool.length + 1), k, true, a.Port⟩]) A []).1, true).1
            = (scaleFill (pool ++ [⟨srvName (pool.length + 1), k, true, a.Port⟩]) A []).1 from rfl]
        simp only [List.length_nil, Nat.sub_self, Nat.sub_zero, Nat.add_zero]
        have hb : pool.length
            < (pool ++ [(⟨srvName (pool.length + 1), k, true, a.Port⟩ : HAProxySrv)]).length := by
          simp
        rw [scaleFill_get_of_not_mem A []
          (pool ++ [(⟨srvName (pool.length + 1), k, true, a.Port⟩ : HAProxySrv)])
          pool.length hb (fun x hx => absurd hx (List.not_mem_nil x))]
        rw [List.getElem?_append_right (Nat.le_refl _)]
        simp
      | succ i =>
        have hstep : scaleFill pool ((k', a') :: A) []
            = ((scaleFill (pool ++ [⟨srvName (pool.length + 1), k', true, a'.Port⟩]) A []).1,
               true) := rfl
        rw [hstep]
        simp only [List.getElem?_cons_succ] at hA
        rw [show ((scaleFill (pool ++ [⟨srvName (pool.length + 1), k', true, a'.Port⟩]) A []).1, true).1
            = (scaleFill (pool ++ [⟨srvName (pool.length + 1), k', true, a'.Port⟩]) A []).1 from rfl]
        have := ih [] (pool ++ [⟨srvName (pool.length + 1), k', true, a'.Port⟩]) i k a hA (Nat.zero_le i)
        rw [List.length_append] at this
        simp only [List.length_cons, List.length_nil] at this
        have harith : pool.length + 1 + (i - 0) = pool.length + (i + 1 - 0) := by omega
        rw [harith] at this
        exact this

lemma scaleFill_flag : ∀ (A : AddrMap) (d : List Nat) (pool : List HAProxySrv),
    (scaleFill pool A d).2 = decide (d.length < A.length) := by
  intro A
  induction A with
  | nil => intro d pool; cases d <;> simp [scaleFill]
  | cons p A ih =>
    intro d pool
    obtain ⟨k, a⟩ := p
    cases d with
    | nil => simp [scaleFill]
    | cons j ds =>
      have hstep : scaleFill pool ((k, a) :: A) (j :: ds)
          = scaleFill (setScaleSlot pool j k a) A ds := rfl
      rw [hstep, ih ds (setScaleSlot pool j k a)]
      simp [Nat.succ_lt_succ_iff]

/-- C3: the scaling operation grows a pool shorter than the resolved
minimum by appending disabled slots (`Address=""`, `Modified=true`) named
by the next sequential indices until the pool length equals the minimum,
collects exactly the created slots (their positions) as recyclable, and
signals reload when any slot was added; the drain step then consumes every
entry of the address set — the i-th entry goes into the i-th recyclable
slot when one remains and otherwise into a brand-new named slot appended
at the end — leaving the address set empty, with reload also signalled
when a brand-new slot was minted. -/
theorem scale_grow_and_drain (pool : List HAProxySrv) (A : AddrMap)
    (lookupAnn : String → String) (m : Int) (n : Nat)
    (hm : m = resolveSrvSlots lookupAnn) (hn : n = (m - pool.length).toNat) :
    (scaleGrow pool m).1
        = pool ++ (List.range' (pool.length + 1) n).map (fun t => ⟨srvName t, "", true, 0⟩)
    ∧ (scaleGrow pool m).2.1 = List.range' pool.length n
    ∧ (scaleGrow pool m).2.2 = decide (0 < n)
    ∧ (scaleGrow pool m).1.length = pool.length + n
    ∧ ((pool.length : Int) < m → ((scaleGrow pool m).1.length : Int) = m)
    ∧ (scaleHAProxySrvs pool A lookupAnn).addrs = []
    ∧ (scaleHAProxySrvs pool A lookupAnn).reload = (decide (0 < n) || decide (n < A.length))
    ∧ (∀ (i j : Nat) (k : String) (a : Address),
        (List.range' pool.length n)[i]? = some j → A[i]? = some (k, a) →
        (scaleHAProxySrvs pool A lookupAnn).pool[j]?
          = ((scaleGrow pool m).1[j]?).map
              (fun s : HAProxySrv => { s with Address := k, Modified := true, Port := a.Port }))
    ∧ (∀ i j : Nat, (List.range' pool.length n)[i]? = some j → A.length ≤ i →
        (scaleHAProxySrvs pool A lookupAnn).pool[j]? = (scaleGrow pool m).1[j]?)
    ∧ (∀ (i : Nat) (k : String) (a : Address), A[i]? = some (k, a) → n ≤ i →
        (scaleHAProxySrvs pool A lookupAnn).pool[pool.length + n + (i - n)]?
          = some (⟨srvName (pool.length + n + (i - n) + 1), k, true, a.Port⟩ : HAProxySrv)) := by
  subst hm
  subst hn
  have hg := scaleGrow_spec pool (resolveSrvSlots lookupAnn)
  have h1 : (scaleGrow pool (resolveSrvSlots lookupAnn)).1
      = pool ++ (List.range' (pool.length + 1)
          ((resolveSrvSlots lookupAnn - pool.length).toNat)).map
          (fun t => (⟨srvName t, "", true, 0⟩ : HAProxySrv)) := by rw [hg]
  have h2 : (scaleGrow pool (resolveSrvSlots lookupAnn)).2.1
      = List.range' pool.length ((resolveSrvSlots lookupAnn - pool.length).toNat) := by
    rw [hg]
  have h3 : (scaleGrow pool (resolveSrvSlots lookupAnn)).2.2
      = decide (0 < (resolveSrvSlots lookupAnn - pool.length).toNat) := by rw [hg]
  have h4 : (scaleGrow pool (resolveSrvSlots lookupAnn)).1.length
      = pool.length + (resolveSrvSlots lookupAnn - pool.length).toNat := by
    rw [h1]
    simp
  have hs_pool : (scaleHAProxySrvs pool A lookupAnn).pool
      = (scaleFill (scaleGrow pool (resolveSrvSlots lookupAnn)).1 A
          (scaleGrow pool (resolveSrvSlots lookupAnn)).2.1).1 := rfl
  have hs_reload : (scaleHAProxySrvs pool A lookupAnn).reload
      = ((scaleGrow pool (resolveSrvSlots lookupAnn)).2.2
         || (scaleFill (scaleGrow pool (resolveSrvSlots lookupAnn)).1 A
              (scaleGrow pool (resolveSrvSlots lookupAnn)).2.1).2) := rfl
  have hbnd : ∀ x ∈ (scaleGrow pool (resolveSrvSlots lookupAnn)).2.1,
      x < (scaleGrow pool (resolveSrvSlots lookupAnn)).1.length := by
    intro x hx
    rw [h2] at hx
    rw [h4]
    exact (List.mem_range'_1.mp hx).2
  have hnd : (scaleGrow pool (resolveSrvSlots lookupAnn)).2.1.Nodup := by
    rw [h2]
    exact List.nodup_range' _ _ 1 (by norm_num)
  refine ⟨h1, h2, h3, h4, ?_, rfl, ?_, ?_, ?_, ?_⟩
  · intro hlt
    rw [h4]
    omega
  · rw [hs_reload, h3, scaleFill_flag, h2, List.length_range']
  · intro i j k a hdi hAi
    rw [hs_pool]
    have hdx : (scaleGrow pool (resolveSrvSlots lookupAnn)).2.1[i]? = some j := by
      rw [h2]
      exact hdi
    exact scaleFill_assigned A (scaleGrow pool (resolveSrvSlots lookupAnn)).2.1
      (scaleGrow pool (resolveSrvSlots lookupAnn)).1 i j k a hdx hAi hnd hbnd
  · intro i j hdi hlen
    rw [hs_pool]
    have hdx : (scaleGrow pool (resolveSrvSlots lookupAnn)).2.1[i]? = some j := by
      rw [h2]
      exact hdi
    exact scaleFill_unassigned A (scaleGrow pool (resolveSrvSlots lookupAnn)).2.1
      (scaleGrow pool (resolveSrvSlots lookupAnn)).1 i j hdx hlen hnd hbnd
  · intro i k a hAi hni
    rw [hs_pool]
    have hdlen : (scaleGrow pool (resolveSrvSlots lookupAnn)).2.1.length
        = (resolveSrvSlots lookupAnn - pool.length).toNat := by
      rw [h2, List.length_range']
    have hnx : (scaleGrow pool (resolveSrvSlots lookupAnn)).2.1.length ≤ i := by
      rw [hdlen]
      exact hni
    have := scaleFill_minted A (scaleGrow pool (resolveSrvSlots lookupAnn)).2.1
      (scaleGrow pool (resolveSrvSlots lookupAnn)).1 i k a hAi hnx
    rw [h4, hdlen] at this
    exact this

/-- Annotation lookup resolving the slot minimum to 2 (Scenario A). -/
def annScaleTwo : String → String := fun n =>
  if n == "scale-server-slots" then "2" else ""

/-- C3 witness: Scenario A — empty pool, minimum 2 and one live address:
the pool ends with exactly slot 0 holding `10.0.0.1:80` with
`Modified=true`, slot 1 disabled with `Modified=true`, the address set
drained, and reload signalled. -/
theorem scale_grow_and_drain_witness :
    (scaleHAProxySrvs [] [("10.0.0.1", ⟨"10.0.0.1", 80⟩)] annScaleTwo).pool[0]?
        = some ⟨"SRV_1", "10.0.0.1", true, 80⟩
    ∧ (scaleHAProxySrvs [] [("10.0.0.1", ⟨"10.0.0.1", 80⟩)] annScaleTwo).pool[1]?
        = some ⟨"SRV_2", "", true, 0⟩
    ∧ (scaleHAProxySrvs [] [("10.0.0.1", ⟨"10.0.0.1", 80⟩)] annScaleTwo).pool.length = 2
    ∧ (scaleHAProxySrvs [] [("10.0.0.1", ⟨"10.0.0.1", 80⟩)] annScaleTwo).addrs = []
    ∧ (scaleHAProxySrvs [] [("10.0.0.1", ⟨"10.0.0.1", 80⟩)] annScaleTwo).reload = true := by
  have h := scale_grow_and_drain [] [("10.0.0.1", ⟨"10.0.0.1", 80⟩)] annScaleTwo 2 2
    (by decide) (by decide)
  refine ⟨?_, ?_, ?_, h.2.2.2.2.2.1, ?_⟩
  · have := h.2.2.2.2.2.2.2.1 0 0 "10.0.0.1" ⟨"10.0.0.1", 80⟩ (by decide) rfl
    rw [this]
    rfl
  · have := h.2.2.2.2.2.2.2.2.1 1 1 (by decide) (by decide)
    rw [this]
    rfl
  · rfl
  · rw [h.2.2.2.2.2.2.1]
    rfl

lemma applyPoolOp_le_names (pool : List HAProxySrv) (op : PoolOp) :
    pool.length ≤ (applyPoolOp pool op).length
    ∧ ∀ j : Nat, j < pool.length →
        ((applyPoolOp pool op)[j]?).map HAProxySrv.Name
          = (pool[j]?).map HAProxySrv.Name := by
  cases op with
  | sync b A =>
    by_cases hb : b = ""
    · subst hb
      constructor
      · exact Nat.le_of_eq (by simp [applyPoolOp, SyncBackendSrvs])
      · intro j _
        simp [applyPoolOp, SyncBackendSrvs]
    · have hpool := SyncBackendSrvs_pool b pool A noFail noFail hb
      have hlen : (applyPoolOp pool (PoolOp.sync b A)).length = pool.length := by
        show (SyncBackendSrvs b pool A noFail noFail).pool.length = pool.length
        rw [hpool, syncFill_pool_length, syncScan_pool_length]
      constructor
      · exact Nat.le_of_eq hlen.symm
      · intro j _
        show ((SyncBackendSrvs b pool A noFail noFail).pool[j]?).map HAProxySrv.Name
          = (pool[j]?).map HAProxySrv.Name
        rw [hpool, syncFill_pool_name, syncScan_pool_name]
  | scale la A =>
    have hg := scaleGrow_spec pool (resolveSrvSlots la)
    have hglen : pool.length ≤ (scaleGrow pool (resolveSrvSlots la)).1.length := by
      rw [hg]
      simp
    have hpool : (applyPoolOp pool (PoolOp.scale la A))
        = (scaleFill (scaleGrow pool (resolveSrvSlots la)).1 A
            (scaleGrow pool (resolveSrvSlots la)).2.1).1 := rfl
    constructor
    · rw [hpool, scaleFill_length]
      omega
    · intro j hj
      rw [hpool]
      have hj2 : j < (scaleGrow pool (resolveSrvSlots la)).1.length :=
        Nat.lt_of_lt_of_le hj hglen
      rw [scaleFill_name_front A (scaleGrow pool (resolveSrvSlots la)).2.1
        (scaleGrow pool (resolveSrvSlots la)).1 j hj2]
      rw [hg]
      rw [List.getElem?_append_left hj]

/-- C7: across any sequence of scaling and synchronization calls on a
fixed backend's slot pool, the pool length never decreases (slots are only
appended or mutated in place, never removed) and every slot already in the
pool keeps the `Name` it was assigned at creation. -/
theorem pool_no_shrink_names_stable (pool : List HAProxySrv) (ops : List PoolOp) :
    pool.length ≤ (applyPoolOps pool ops).length
    ∧ ∀ j : Nat, j < pool.length →
        ((applyPoolOps pool ops)[j]?).map HAProxySrv.Name
          = (pool[j]?).map HAProxySrv.Name := by
  induction ops generalizing pool with
  | nil => exact ⟨Nat.le_refl _, fun j _ => rfl⟩
  | cons op ops ih =>
    have h1 := applyPoolOp_le_names pool op
    have h2 := ih (applyPoolOp pool op)
    constructor
    · exact Nat.le_trans h1.1 h2.1
    · intro j hj
      show ((applyPoolOps (applyPoolOp pool op) ops)[j]?).map HAProxySrv.Name
        = (pool[j]?).map HAProxySrv.Name
      rw [h2.2 j (Nat.lt_of_lt_of_le hj h1.1), h1.2 j hj]

/-- C7 witness: a one-slot pool put through a scaling call (minimum 2, one
new live address) followed by a synchronization call keeps `SRV_1` at
position 0 and never shrinks. -/
theorem pool_no_shrink_names_stable_witness :
    1 ≤ (applyPoolOps [⟨"SRV_1", "10.0.0.1", false, 80⟩]
        [PoolOp.scale annScaleTwo [("10.0.0.2", ⟨"10.0.0.2", 80⟩)],
         PoolOp.sync "b" [("10.0.0.2", ⟨"10.0.0.2", 80⟩)]]).length
    ∧ ((applyPoolOps [⟨"SRV_1", "10.0.0.1", false, 80⟩]
        [PoolOp.scale annScaleTwo [("10.0.0.2", ⟨"10.0.0.2", 80⟩)],
         PoolOp.sync "b" [("10.0.0.2", ⟨"10.0.0.2", 80⟩)]])[0]?).map HAProxySrv.Name
      = some "SRV_1" := by
  have h := pool_no_shrink_names_stable [⟨"SRV_1", "10.0.0.1", false, 80⟩]
    [PoolOp.scale annScaleTwo [("10.0.0.2", ⟨"10.0.0.2", 80⟩)],
     PoolOp.sync "b" [("10.0.0.2", ⟨"10.0.0.2", 80⟩)]]
  exact ⟨h.1, (h.2 0 (by decide)).trans rfl⟩

lemma syncScan_step_spec : ∀ (pool : List HAProxySrv) (A : AddrMap) (i j : Nat)
    (s : HAProxySrv), pool[j]? = some s →
    (pool.map HAProxySrv.Address).Nodup →
    ((A.hasKey s.Address = true →
        (syncScan i pool A).pool[j]? = some s
        ∧ (syncScan i pool A).addrs.hasKey s.Address = false)
     ∧ (A.hasKey s.Address = false →
        (syncScan i pool A).pool[j]? = some { s with Address := "", Modified := true }
        ∧ (i + j) ∈ (syncScan i pool A).disabled)) := by
  intro pool
  induction pool with
  | nil => intro A i j s hj _; simp at hj
  | cons t rest ih =>
    intro A i j s hj hnd
    rw [List.map_cons, List.nodup_cons] at hnd
    cases j with
    | zero =>
      have hts : t = s := by simpa using hj
      subst hts
      constructor
      · intro hk
        rw [syncScan_cons_pos i t rest A hk]
        refine ⟨by simp, ?_⟩
        show (syncScan (i + 1) rest (A.delKey t.Address)).addrs.hasKey t.Address = false
        cases hres : (syncScan (i + 1) rest (A.delKey t.Address)).addrs.hasKey t.Address with
        | false => rfl
        | true =>
          have h2 := syncScan_addrs_imp rest (i + 1) (A.delKey t.Address) t.Address hres
          rw [delKey_hasKey_self A t.Address] at h2
          exact absurd h2 (by simp)
      · intro hk
        rw [syncScan_cons_neg i t rest A hk]
        exact ⟨by simp, by simp⟩
    | succ j =>
      simp only [List.getElem?_cons_succ] at hj
      have hsmem : s ∈ rest := List.getElem?_mem hj
      cases hk : A.hasKey t.Address with
      | true =>
        rw [syncScan_cons_pos i t rest A hk]
        have hts : t.Address ≠ s.Address := by
          intro he
          exact hnd.1 (he ▸ List.mem_map.mpr ⟨s, hsmem, rfl⟩)
        have hkey : (A.delKey t.Address).hasKey s.Address = A.hasKey s.Address :=
          delKey_hasKey_ne A s.Address t.Address (fun he => hts he.symm)
        have ihr := ih (A.delKey t.Address) (i + 1) j s hj hnd.2
        constructor
        · intro hs
          have hres := ihr.1 (by rw [hkey]; exact hs)
          exact ⟨by simpa using hres.1, hres.2⟩
        · intro hs
          have hres := ihr.2 (by rw [hkey]; exact hs)
          refine ⟨by simpa using hres.1, ?_⟩
          have harith : i + (j + 1) = (i + 1) + j := by omega
          rw [harith]
          exact hres.2
      | false =>
        rw [syncScan_cons_neg i t rest A hk]
        have ihr := ih A (i + 1) j s hj hnd.2
        constructor
        · intro hs
          have hres := ihr.1 hs
          exact ⟨by simpa using hres.1, hres.2⟩
        · intro hs
          have hres := ihr.2 hs
          refine ⟨by simpa using hres.1, ?_⟩
          have harith : i + (j + 1) = (i + 1) + j := by omega
          rw [harith]
          exact List.mem_cons_of_mem i hres.2

/-- C1: in one `SyncBackendSrvs` pass over a pool of slots holding
pairwise-distinct non-empty addresses, every slot whose address is present
in the live address map is left unmodified and its address is removed from
the map (absent from the remaining map), every slot whose address is
absent gets `Address=""` and `Modified=true` and its position is recorded
as reusable; the reusable positions are in strictly increasing pool order,
and the first reusable slot — the disabled slot earliest in pool order —
is the one assigned to the next unmatched live address within the same
pass (receiving that entry's address and port with `Modified=true`). -/
theorem sync_disable_before_reuse (b : String) (pool : List HAProxySrv) (A : AddrMap)
    (hb : b ≠ "")
    (hne : ∀ t ∈ pool, t.Address ≠ "")
    (hnd : (pool.map HAProxySrv.Address).Nodup) :
    (∀ (j : Nat) (s : HAProxySrv), pool[j]? = some s →
      (A.hasKey s.Address = true →
        (syncScan 0 pool A).pool[j]? = some s
        ∧ (syncScan 0 pool A).addrs.hasKey s.Address = false)
      ∧ (A.hasKey s.Address = false →
        (syncScan 0 pool A).pool[j]? = some { s with Address := "", Modified := true }
        ∧ j ∈ (syncScan 0 pool A).disabled))
    ∧ List.Chain' (· < ·) (syncScan 0 pool A).disabled
    ∧ (∀ (j : Nat) (ds : List Nat) (k : String) (a : Address) (A2 : AddrMap),
        (syncScan 0 pool A).disabled = j :: ds →
        (syncScan 0 pool A).addrs = (k, a) :: A2 →
        (SyncBackendSrvs b pool A noFail noFail).pool[j]?
          = ((syncScan 0 pool A).pool[j]?).map
              (fun s : HAProxySrv =>
                { s with Address := a.Address, Modified := true, Port := a.Port })) := by
  refine ⟨?_, syncScan_disabled_chain pool 0 A, ?_⟩
  · intro j s hj
    have h := syncScan_step_spec pool A 0 j s hj hnd
    refine ⟨h.1, fun hk => ⟨(h.2 hk).1, ?_⟩⟩
    have := (h.2 hk).2
    simpa using this
  · intro j ds k a A2 hd ha
    rw [SyncBackendSrvs_pool b pool A noFail noFail hb]
    rw [hd, ha]
    have hstep : syncFill (syncScan 0 pool A).pool ((k, a) :: A2) (j :: ds)
        = syncFill (setSrvAddr (syncScan 0 pool A).pool j a) A2 ds := rfl
    rw [hstep]
    have hchain := syncScan_disabled_chain pool 0 A
    rw [hd] at hchain
    have hpair := (List.chain'_iff_pairwise.mp hchain)
    have hgt : ∀ x ∈ ds, x ≠ j := by
      intro x hx he
      have := (List.pairwise_cons.mp hpair).1 x hx
      omega
    have hjlt : j < (syncScan 0 pool A).pool.length := by
      have hmem : j ∈ (syncScan 0 pool A).disabled := by
        rw [hd]
        exact List.mem_cons_self j ds
      have := syncScan_disabled_lt pool 0 A j hmem
      rw [syncScan_pool_length]
      omega
    rw [syncFill_get_of_not_mem A2 ds (setSrvAddr (syncScan 0 pool A).pool j a) j hgt]
    exact setSrvAddr_get_self (syncScan 0 pool A).pool j a hjlt

/-- C1 witness: a one-slot pool holding `10.0.0.1` with live address map
`{10.0.0.2}` — the slot is disabled by the scan and that same slot is the
one assigned `10.0.0.2:80` by the reuse step of the same pass. -/
theorem sync_disable_before_reuse_witness :
    (syncScan 0 [⟨"SRV_1", "10.0.0.1", false, 80⟩]
        [("10.0.0.2", ⟨"10.0.0.2", 80⟩)]).pool[0]?
      = some ⟨"SRV_1", "", true, 80⟩
    ∧ (SyncBackendSrvs "b" [⟨"SRV_1", "10.0.0.1", false, 80⟩]
        [("10.0.0.2", ⟨"10.0.0.2", 80⟩)] noFail noFail).pool[0]?
      = some ⟨"SRV_1", "10.0.0.2", true, 80⟩ := by
  have h := sync_disable_before_reuse "b" [⟨"SRV_1", "10.0.0.1", false, 80⟩]
    [("10.0.0.2", ⟨"10.0.0.2", 80⟩)] (by decide) (by decide) (by decide)
  constructor
  · exact ((h.1 0 ⟨"SRV_1", "10.0.0.1", false, 80⟩ rfl).2 (by decide)).1
  · have h3 := h.2.2 0 [] "10.0.0.2" ⟨"10.0.0.2", 80⟩ [] (by decide) (by decide)
    rw [h3]
    rfl
